import Mathlib

set_option maxRecDepth 2000

/-!
Verification development for the multistream character-device driver
(`src/driver/multistream-driver.c` together with `src/driver/structs/structs.h`).

The driver keeps, per endpoint (minor number), two flows (0 = low priority,
1 = high priority).  Each flow is a singly linked chain of pages
(`object_content`: `record_length` = written fill, `read_offset` = read
cursor, `stream_content` = the page bytes) plus the counters
`valid_bytes` and `total_free_bytes`.  Low-priority writes are deferred to
a FIFO work queue (`packed_data_wq`, executed by `do_wq_write`).

The shallow embedding below translates the driver functions into pure Lean
functions.  Nondeterministic aspects of the kernel environment are made
explicit inputs:
  * memory-allocation success is an oracle `List Bool` (head consulted at
    each allocation attempt; the empty list means every allocation
    succeeds) — each creation of a page node (`kzalloc` of the node plus
    `__get_free_page` for its data, whose failures are observationally
    identical: the node is freed and `-ENOMEM` is returned) consumes one
    oracle entry;
  * the outcome of `mutex_trylock`/`do_sleep_wqe` wait sequences is a
    boolean / `WaitRes` input (the driver serialises each operation under
    the flow mutex, so an operation is modelled as an atomic step);
  * machine integers: `valid_bytes`, `total_free_bytes` and the per-minor
    counters are C `int`s that the driver can drive negative, so they are
    modelled as `Int`; `size_t` lengths are `Nat`; the C comparisons
    `len > valid_bytes` / `len > total_free_bytes` promote the `int` to an
    unsigned 64-bit value, modelled by `toUnsigned`.
A null-pointer dereference or a non-terminating loop in the C code is
modelled as the absence of a result (`Option`/`crash`).
-/

namespace Multistream

/-- Page size, `OBJECT_MAX_SIZE` in the driver. -/
def OBJECT_MAX_SIZE : Nat := 4096

/-- Pages per flow, `MAX_PAGES` in the driver. -/
def MAX_PAGES : Nat := 5

/-- Total per-flow capacity, `OBJECT_MAX_SIZE * MAX_PAGES`. -/
def CAPACITY : Nat := OBJECT_MAX_SIZE * MAX_PAGES

/-- Number of minors handled by the driver (`MINORS`). -/
def MINORS : Nat := 128

/-- Error number `ENODEV` (the driver returns its negation). -/
def ENODEV : Int := 19

/-- Error number `ENOMEM`. -/
def ENOMEM : Int := 12

/-- Error number `ENOSPC`. -/
def ENOSPC : Int := 28

/-- Error number `EINTR`. -/
def EINTR : Int := 4

/-- A page of the stream (`object_content`): `stream_content` holds the
bytes written so far (so `record_length` is `stream_content.length`) and
`read_offset` is the read cursor. -/
structure Page where
  stream_content : List Nat
  read_offset : Nat
deriving DecidableEq

/-- A freshly allocated page (`record_length = 0`, `read_offset = 0`). -/
def emptyPage : Page := ⟨[], 0⟩

/-- The fill level of a page, `record_length` in the C struct. -/
def Page.record_length (p : Page) : Nat := p.stream_content.length

/-- The unread bytes of a page. -/
def Page.unread (p : Page) : List Nat := p.stream_content.drop p.read_offset

/-- Allocation oracle: success of the next allocation (empty = success). -/
def allocNext : List Bool → Bool
  | [] => true
  | b :: _ => b

/-- Allocation oracle after consuming one entry. -/
def allocRest : List Bool → List Bool
  | [] => []
  | _ :: r => r

/-- Unsigned 64-bit view of a C `int`, as produced by the implicit
conversion in comparisons such as `len > valid_bytes` where `len` is a
`size_t`. -/
def toUnsigned (i : Int) : Nat := (i.emod (2 ^ 64)).toNat

/-- The copy loop at the end of `write_data` (`while(len > 0)`): fill the
current page up to `OBJECT_MAX_SIZE`, advancing to the next page when the
current one is full and bytes remain.  `none` models the dereference of a
null `next` pointer when the loop runs past the last page (the else-branch
with bytes remaining cannot make progress and models the same failure). -/
def copyLoop (buf : List Nat) (len : Nat) (pages : List Page) :
    Option (Nat × List Page) :=
  if len = 0 then some (0, pages) else
  match pages with
  | [] => none
  | p :: ps =>
    let space := OBJECT_MAX_SIZE - p.stream_content.length
    let curr := min len space
    let p' : Page := ⟨p.stream_content ++ buf.take curr, p.read_offset⟩
    if p'.stream_content.length = OBJECT_MAX_SIZE ∧ 0 < len - curr then
      match copyLoop (buf.drop curr) (len - curr) ps with
      | none => none
      | some r => some (curr + r.1, p' :: r.2)
    else if 0 < len - curr then none
    else some (curr, p' :: ps)

/-- The first walk in `write_data`: skip fully filled pages while a `next`
page exists; returns (skipped full prefix, the page found, its suffix).
The page found is the first non-full page, or the last page when every
page is full. -/
def walk1 (p : Page) (ps : List Page) : List Page × Page × List Page :=
  if p.stream_content.length = OBJECT_MAX_SIZE then
    match ps with
    | [] => ([], p, [])
    | q :: qs =>
      let r := walk1 q qs
      (p :: r.1, r.2.1, r.2.2)
  else ([], p, ps)

/-- The second walk in `write_data` (`while(record_length == OBJECT_MAX_SIZE)`
with no null check): find the first non-full page; `none` models the null
dereference when every page is full. -/
def walk2 : List Page → Option (List Page × Page × List Page)
  | [] => none
  | p :: ps =>
    if p.stream_content.length = OBJECT_MAX_SIZE then
      (walk2 ps).map (fun r => (p :: r.1, r.2.1, r.2.2))
    else some ([], p, ps)

/-- The page-allocation loop of `write_data` (`while (temp_len > 0)` on
the C `int` variable `temp_len`): each iteration allocates one page node
and decrements `temp_len` by `OBJECT_MAX_SIZE`.  Returns (overall
success, number of pages allocated before any failure, remaining
oracle); on failure the pages already allocated stay linked into the
chain. -/
def allocLoop (tempLen : Int) (o : List Bool) : Bool × Nat × List Bool :=
  if 0 < tempLen then
    if allocNext o then
      match allocLoop (tempLen - (OBJECT_MAX_SIZE : Int)) (allocRest o) with
      | (b, k, o') => (b, k + 1, o')
    else (false, 0, allocRest o)
  else (true, 0, o)
termination_by tempLen.toNat
decreasing_by have : OBJECT_MAX_SIZE = 4096 := rfl; omega

/-- Result of `write_data`: bytes copied, `-ENOMEM` (allocation failure,
with zero bytes copied), or a crash (null dereference). -/
inductive WDRes where
  | ok (n : Nat)
  | nomem
  | crash
deriving DecidableEq

/-- Output of `write_data`: result, page chain after the call, remaining
allocation oracle. -/
structure WDOut where
  res : WDRes
  pages : List Page
  oracle : List Bool
deriving DecidableEq

/-- The tail of `write_data` after the allocation phase: the second walk
to the first non-full page followed by the copy loop. -/
def copyPhase (len : Nat) (buf : List Nat) (chain : List Page)
    (o : List Bool) : WDOut :=
  match walk2 chain with
  | none => ⟨.crash, chain, o⟩
  | some w =>
    match copyLoop buf len (w.2.1 :: w.2.2) with
    | none => ⟨.crash, chain, o⟩
    | some r => ⟨.ok r.1, w.1 ++ r.2, o⟩

/-- Body of `write_data` once the chain is known to be non-empty: first
walk, space check `((OBJECT_MAX_SIZE - record_length) - temp_len) < 0`,
page pre-allocation (a failure mid-loop leaves the already linked new
pages in place and returns `-ENOMEM`; note that the first assignment
`temp_object->next = new_record` discards the previous suffix, so a
non-empty batch of new pages replaces the old suffix), then the copy
phase. -/
def write_dataCore (len : Nat) (buf : List Nat) (p0 : Page)
    (ps0 : List Page) (o : List Bool) : WDOut :=
  let w := walk1 p0 ps0
  let space := OBJECT_MAX_SIZE - w.2.1.stream_content.length
  if space < len then
    let a := allocLoop ((len : Int) - (space : Int)) o
    let newSuf := if a.2.1 = 0 then w.2.2
                  else List.replicate a.2.1 emptyPage
    let chain := w.1 ++ w.2.1 :: newSuf
    if a.1 then copyPhase len buf chain a.2.2
    else ⟨.nomem, chain, a.2.2⟩
  else
    copyPhase len buf (w.1 ++ w.2.1 :: w.2.2) o

/-- The driver's `write_data`: if the chain head was deallocated
(`list_heads[priority]->next == NULL`) a fresh first page is allocated,
then the core runs. -/
def write_data (len : Nat) (buf : List Nat) (pages : List Page)
    (o : List Bool) : WDOut :=
  match pages with
  | [] =>
    if allocNext o then write_dataCore len buf emptyPage [] (allocRest o)
    else ⟨.nomem, [], allocRest o⟩
  | p :: ps => write_dataCore len buf p ps o

/-- The read copy loop of `dev_read` (`while(len > 0)`): copy
`min(len, record_length - read_offset)` bytes from the head page,
advance its cursor, move to the next page when the cursor reaches
`OBJECT_MAX_SIZE` (such pages are unlinked and freed after the loop,
modelled here by dropping them).  `none` models the two failure modes of
the C loop: running past the last page (null dereference) and a page that
is exhausted but not full while bytes remain (the loop then makes no
progress and never terminates). -/
def consumeLoop (len : Nat) (pages : List Page) :
    Option (List Nat × List Page) :=
  if len = 0 then some ([], pages) else
  match pages with
  | [] => none
  | p :: ps =>
    let avail := p.stream_content.length - p.read_offset
    let toRead := min len avail
    let bytes := (p.stream_content.drop p.read_offset).take toRead
    let p' : Page := ⟨p.stream_content, p.read_offset + toRead⟩
    if p'.read_offset = OBJECT_MAX_SIZE then
      match consumeLoop (len - toRead) ps with
      | none => none
      | some r => some (bytes ++ r.1, r.2)
    else if len - toRead = 0 then some (bytes, p' :: ps)
    else none

/-- One flow of an endpoint: the fields of `object_state` indexed by a
priority (`valid_bytes`, `total_free_bytes`, and the page chain hanging
off `list_heads[priority]`; the sentinel node is implicit and an empty
list models `list_heads[p]->next == NULL`). -/
structure Flow where
  valid_bytes : Int
  total_free_bytes : Int
  pages : List Page
deriving DecidableEq

/-- A deferred write job (`packed_data_wq`): `len` is the byte count
reserved at enqueue time, `data` the staged buffer handed to the worker
(its meaningful prefix has at least `len` bytes). -/
structure Job where
  len : Nat
  data : List Nat
deriving DecidableEq

/-- State of one endpoint together with its per-minor module-parameter
entries and the deferred-write queue (jobs execute in FIFO order). -/
structure SysState where
  low : Flow
  high : Flow
  low_data_count : Int
  high_data_count : Int
  enable_disable : Nat
  pending : List Job
deriving DecidableEq

/-- Session state (`io_sess_info`). -/
structure IoSessInfo where
  priority : Nat
  timeout : Int
deriving DecidableEq

/-- Initial endpoint state from `init_module`: both flows empty with one
fresh page, counters zero, device enabled. -/
def initState : SysState :=
  ⟨⟨0, (CAPACITY : Int), [emptyPage]⟩, ⟨0, (CAPACITY : Int), [emptyPage]⟩,
   0, 0, 0, []⟩

/-- The flow selected by a priority index. -/
def SysState.flow (st : SysState) (p : Fin 2) : Flow :=
  if p.val = 0 then st.low else st.high

/-- Replace the flow selected by a priority index. -/
def SysState.setFlow (st : SysState) (p : Fin 2) (f : Flow) : SysState :=
  if p.val = 0 then { st with low := f } else { st with high := f }

/-- Add to the per-minor data counter of the selected flow
(`low_data_count` / `high_data_count`). -/
def SysState.addCount (st : SysState) (p : Fin 2) (d : Int) : SysState :=
  if p.val = 0 then { st with low_data_count := st.low_data_count + d }
  else { st with high_data_count := st.high_data_count + d }

/-- Outcome of a `do_sleep_wqe` wait: condition satisfied in time, timed
out, or interrupted by a signal (`-ERESTARTSYS`, surfaced as `-EINTR`). -/
inductive WaitRes where
  | success
  | timedOut
  | interrupted
deriving DecidableEq

/-- Environment of one `dev_write` call: allocation outcomes, the
`copy_from_user` shortfall, and the outcomes of the lock/wait points. -/
structure WriteEnv where
  allocTemp : Bool
  cfuFail : Nat
  lock1 : Bool
  waitRes : WaitRes
  lock2 : Bool
  moduleGet : Bool
  allocWq : Bool
  allocWqData : Bool
  pageAlloc : List Bool
deriving DecidableEq

/-- Observable outcome of `dev_write`: return value (`none` models a
crash inside `write_data`), post state, number of `wake_up_interruptible`
calls issued, number of `mutex_unlock` calls issued, and whether the flow
mutex was acquired at some point. -/
structure WriteOut where
  ret : Option Int
  st : SysState
  wakes : Nat
  unlocks : Nat
  acquired : Bool
deriving DecidableEq

/-- The portion of `dev_write` that runs with the lock held after any
wait: the re-check `total_free_bytes == 0`, the clamp, and the
priority split (deferred enqueue for low, `write_data` plus counter
updates for high). -/
def dev_writeLocked (st : SysState) (p : Fin 2) (temp : List Nat)
    (len0 : Nat) (e : WriteEnv) (baseUnlocks : Nat) : WriteOut :=
  let fl := st.flow p
  if fl.total_free_bytes = 0 then
    ⟨some (-ENOSPC), st, 1, baseUnlocks + 1, true⟩
  else
    let len1 := if len0 > toUnsigned fl.total_free_bytes
                then toUnsigned fl.total_free_bytes else len0
    if p.val = 0 then
      if ¬ e.moduleGet then ⟨some (-ENODEV), st, 1, baseUnlocks + 1, true⟩
      else if ¬ e.allocWq then ⟨some (-1), st, 1, baseUnlocks + 1, true⟩
      else if ¬ e.allocWqData then
        ⟨some (-ENOMEM), st, 1, baseUnlocks + 1, true⟩
      else
        let st' := { st with
          low := { st.low with
            total_free_bytes := st.low.total_free_bytes - (len1 : Int) },
          pending := st.pending ++ [⟨len1, temp⟩] }
        ⟨some (len1 : Int), st', 1, baseUnlocks + 1, true⟩
    else
      let wd := write_data len1 temp fl.pages e.pageAlloc
      match wd.res with
      | .crash =>
        ⟨none, st.setFlow p { fl with pages := wd.pages }, 0,
         baseUnlocks, true⟩
      | .ok n =>
        let fl' : Flow :=
          ⟨fl.valid_bytes + (n : Int), fl.total_free_bytes - (n : Int),
           wd.pages⟩
        ⟨some (n : Int), (st.setFlow p fl').addCount p (n : Int), 1,
         baseUnlocks + 1, true⟩
      | .nomem =>
        let fl' : Flow :=
          ⟨fl.valid_bytes + (-ENOMEM), fl.total_free_bytes - (-ENOMEM),
           wd.pages⟩
        ⟨some (-ENOMEM), (st.setFlow p fl').addCount p (-ENOMEM), 1,
         baseUnlocks + 1, true⟩

/-- The driver's `dev_write`: staging-buffer allocation, `copy_from_user`
shortfall (`len = len - ret`), `try_get_lock`, the
`total_free_bytes == 0 && timeout > 0` wait (whose failure — timeout or
interrupt alike — returns `-ENOSPC` with no wake), re-lock, then the
locked portion. -/
def dev_write (st : SysState) (p : Fin 2) (timeout : Int)
    (data : List Nat) (e : WriteEnv) : WriteOut :=
  if ¬ e.allocTemp then ⟨some (-ENOMEM), st, 0, 0, false⟩
  else
    let len0 := data.length - e.cfuFail
    let temp := data.take len0
    if ¬ e.lock1 then ⟨some (-1), st, 0, 0, false⟩
    else
      let fl := st.flow p
      if fl.total_free_bytes = 0 ∧ 0 < timeout then
        if e.waitRes ≠ .success then ⟨some (-ENOSPC), st, 0, 1, true⟩
        else if ¬ e.lock2 then ⟨some (-1), st, 0, 1, true⟩
        else dev_writeLocked st p temp len0 e 1
      else dev_writeLocked st p temp len0 e 0

/-- Environment of one `dev_read` call. -/
structure ReadEnv where
  lock1 : Bool
  waitRes : WaitRes
  lock2 : Bool
  allocTemp : Bool
  ctuFail : Nat
deriving DecidableEq

/-- Observable outcome of `dev_read`; `buf` is the content of the
caller's `ulen`-byte destination buffer after the call. -/
structure ReadOut where
  ret : Option Int
  st : SysState
  buf : List Nat
  wakes : Nat
  unlocks : Nat
  acquired : Bool
deriving DecidableEq

/-- The portion of `dev_read` that runs with the lock held after any
wait: the re-check `valid_bytes == 0`, the clamp
`len > valid_bytes` (an unsigned comparison), the staging allocation, the
consume loop, counter updates, and the final `copy_to_user` (which leaves
untransferred trailing bytes as the zeros written by `clear_user`). -/
def dev_readLocked (st : SysState) (p : Fin 2) (ulen : Nat)
    (zeroBuf : List Nat) (e : ReadEnv) (baseUnlocks : Nat) : ReadOut :=
  let fl := st.flow p
  if fl.valid_bytes = 0 then
    ⟨some 0, st, zeroBuf, 1, baseUnlocks + 1, true⟩
  else
    let len1 := if ulen > toUnsigned fl.valid_bytes
                then toUnsigned fl.valid_bytes else ulen
    if ¬ e.allocTemp then
      ⟨some (-ENOMEM), st, zeroBuf, 1, baseUnlocks + 1, true⟩
    else
      match consumeLoop len1 fl.pages with
      | none => ⟨none, st, zeroBuf, 0, baseUnlocks, true⟩
      | some r =>
        let fl' : Flow :=
          ⟨fl.valid_bytes - (len1 : Int), fl.total_free_bytes + (len1 : Int),
           r.2⟩
        let st' := (st.setFlow p fl').addCount p (-(len1 : Int))
        let cf := min e.ctuFail len1
        let outBuf := r.1.take (len1 - cf) ++
          List.replicate (ulen - (len1 - cf)) 0
        ⟨some ((len1 : Int) - (cf : Int)), st', outBuf, 1,
         baseUnlocks + 1, true⟩

/-- The driver's `dev_read`: `clear_user` zero-fills the destination
before anything else, then `try_get_lock`, the
`valid_bytes == 0 && timeout > 0` wait (whose failure returns 0 with no
wake), re-lock, then the locked portion. -/
def dev_read (st : SysState) (p : Fin 2) (timeout : Int) (ulen : Nat)
    (e : ReadEnv) : ReadOut :=
  let zeroBuf := List.replicate ulen 0
  if ¬ e.lock1 then ⟨some (-1), st, zeroBuf, 0, 0, false⟩
  else
    let fl := st.flow p
    if fl.valid_bytes = 0 ∧ 0 < timeout then
      if e.waitRes ≠ .success then ⟨some 0, st, zeroBuf, 0, 1, true⟩
      else if ¬ e.lock2 then ⟨some (-1), st, zeroBuf, 0, 1, true⟩
      else dev_readLocked st p ulen zeroBuf e 1
    else dev_readLocked st p ulen zeroBuf e 0

/-- Control command `SET_PRIO` (wire value 1). -/
def SET_PRIO : Nat := 1

/-- Control command `SET_BLOCKING` (wire value 3). -/
def SET_BLOCKING : Nat := 3

/-- Control command `SET_OPENCLOSE` (wire value 4). -/
def SET_OPENCLOSE : Nat := 4

/-- Observable outcome of `dev_ioctl`. -/
structure IoctlOut where
  ret : Int
  st : SysState
  sess : IoSessInfo
  wakes : Nat
  unlocks : Nat
  acquired : Bool
deriving DecidableEq

/-- The driver's `dev_ioctl`: under the previous priority's lock, the
recognised commands store their argument without validation
(`sess_info->priority = param`, `sess_info->timeout = param`,
`enable_disable_array[minor] = param`); an unknown command returns -1.
Every path after acquisition unlocks and wakes once. -/
def dev_ioctl (st : SysState) (sess : IoSessInfo) (command : Nat)
    (param : Nat) (lockOk : Bool) : IoctlOut :=
  if ¬ lockOk then ⟨-ENODEV, st, sess, 0, 0, false⟩
  else if command = SET_PRIO then
    ⟨0, st, { sess with priority := param }, 1, 1, true⟩
  else if command = SET_BLOCKING then
    ⟨0, st, { sess with timeout := (param : Int) }, 1, 1, true⟩
  else if command = SET_OPENCLOSE then
    ⟨0, { st with enable_disable := param }, sess, 1, 1, true⟩
  else ⟨-1, st, sess, 1, 1, true⟩

/-- The driver's `dev_open`: `-ENODEV` for `minor >= MINORS`, `-1` for a
disabled endpoint (`enable_disable_array[minor]` non-zero), `-1` if the
session allocation fails; otherwise a session with priority 1 (high) and
timeout 0 (non-blocking). -/
def dev_open (minor : Nat) (enable : Nat → Nat) (alloc : Bool) :
    Int ⊕ IoSessInfo :=
  if MINORS ≤ minor then Sum.inl (-ENODEV)
  else if enable minor ≠ 0 then Sum.inl (-1)
  else if alloc then Sum.inr ⟨1, 0⟩
  else Sum.inl (-1)

/-- The deferred-write worker `do_wq_write`: pops the next job, runs
`write_data` on the low flow, and credits `valid_bytes[0]` and
`low_data_count` with the job's full length regardless of how many bytes
`write_data` actually appended (its return value is ignored).  `none`
models a crash inside `write_data`.  With no pending job the worker does
not run. -/
def do_wq_write (st : SysState) (pageAlloc : List Bool) :
    Option SysState :=
  match st.pending with
  | [] => some st
  | j :: rest =>
    let wd := write_data j.len j.data st.low.pages pageAlloc
    if wd.res = .crash then none
    else some { st with
      low := { st.low with
        valid_bytes := st.low.valid_bytes + (j.len : Int),
        pages := wd.pages },
      low_data_count := st.low_data_count + (j.len : Int),
      pending := rest }

/-- One operation on the endpoint, carrying the session attributes it
uses and its environment oracles.  `openOp`/`closeOp` model
`dev_open`/`dev_release`, which do not touch the flow state. -/
inductive Op where
  | write (p : Fin 2) (timeout : Int) (data : List Nat) (e : WriteEnv)
  | read (p : Fin 2) (timeout : Int) (ulen : Nat) (e : ReadEnv)
  | ioctlOp (sess : IoSessInfo) (command : Nat) (param : Nat)
      (lockOk : Bool)
  | runJob (pageAlloc : List Bool)
  | openOp
  | closeOp

/-- Effect of one operation on the endpoint state; `none` models a crash
(null dereference or non-terminating loop inside the operation). -/
def step (st : SysState) : Op → Option SysState
  | .write p t d e =>
    let o := dev_write st p t d e
    match o.ret with
    | none => none
    | some _ => some o.st
  | .read p t n e =>
    let o := dev_read st p t n e
    match o.ret with
    | none => none
    | some _ => some o.st
  | .ioctlOp s c a l => some (dev_ioctl st s c a l).st
  | .runJob a => do_wq_write st a
  | .openOp => some st
  | .closeOp => some st

/-- Run a sequence of operations from a state. -/
def run (st : SysState) : List Op → Option SysState
  | [] => some st
  | op :: ops =>
    match step st op with
    | none => none
    | some st' => run st' ops

/-- Sum over the chain of `record_length - read_offset`, the byte count
the invariant compares `valid_bytes` against. -/
def sumValid (ps : List Page) : Int :=
  (ps.map (fun p =>
    (p.stream_content.length : Int) - (p.read_offset : Int))).sum

/-- All unread bytes of a chain, in stream order. -/
def unreadBytes (ps : List Page) : List Nat :=
  (ps.map Page.unread).flatten

/-- Total bytes reserved by deferred writes not yet executed. -/
def pendingBytes (js : List Job) : Int :=
  (js.map (fun j => (j.len : Int))).sum

/-- Total fill of a chain. -/
def sumFill (ps : List Page) : Nat :=
  (ps.map (fun p => p.stream_content.length)).sum

/-- Cursors are within fill and fill within the page size. -/
def pagesWF (ps : List Page) : Prop :=
  ∀ p ∈ ps, p.read_offset ≤ p.stream_content.length ∧
    p.stream_content.length ≤ OBJECT_MAX_SIZE

/-- Every page after the chain head has read cursor 0. -/
def tailZero (ps : List Page) : Prop :=
  ∀ p ∈ ps.tail, p.read_offset = 0

/-- No page in the chain has its cursor at the page size (a fully read
page is unlinked before the operation returns). -/
def noFullCursor (ps : List Page) : Prop :=
  ∀ p ∈ ps, p.read_offset < OBJECT_MAX_SIZE

/-- Every page except the last is completely filled (writes fill pages
in order and only the last touched page may stay partial). -/
def chainOk (ps : List Page) : Prop :=
  ∀ p ∈ ps.dropLast, p.stream_content.length = OBJECT_MAX_SIZE

/-- An operation whose internal page allocations all succeed (the empty
oracle grants every request). -/
def cleanOp : Op → Bool
  | .write _ _ _ e => e.pageAlloc.isEmpty
  | .runJob a => a.isEmpty
  | _ => true

/-- Bundle of the cursor/fill discipline of a page chain: cursors within
fill, fill within the page size, non-head cursors zero, no cursor at the
page boundary. -/
structure PagesInv (ps : List Page) : Prop where
  wf : pagesWF ps
  tz : tailZero ps
  nfc : noFullCursor ps

/-- The counter balance the driver maintains per flow: for the high flow
`valid_bytes + total_free_bytes` equals the capacity; for the low flow
the bytes reserved by deferred writes not yet executed (debited from
`total_free_bytes` at enqueue time) complete the equation. -/
def Balance (st : SysState) : Prop :=
  st.high.valid_bytes + st.high.total_free_bytes = (CAPACITY : Int) ∧
  st.low.valid_bytes + st.low.total_free_bytes +
    pendingBytes st.pending = (CAPACITY : Int)

/-- A write environment in which every allocation and lock acquisition
succeeds and `copy_from_user` copies everything. -/
def cleanWEnv : WriteEnv :=
  ⟨true, 0, true, .success, true, true, true, true, []⟩

/-- A read environment in which every allocation and lock acquisition
succeeds and `copy_to_user` copies everything. -/
def cleanREnv : ReadEnv := ⟨true, .success, true, true, 0⟩

/-- Operation trace for the C1 witness: a synchronous write, a read, and
a worker run. -/
def C1ops : List Op :=
  [Op.write 1 0 [5, 6] cleanWEnv, Op.read 1 0 1 cleanREnv, Op.runJob []]

/-- Resulting state of the C1 witness trace. -/
def C1st : SysState :=
  ⟨⟨0, 20480, [emptyPage]⟩, ⟨1, 20479, [⟨[5, 6], 1⟩]⟩, 0, 1, 0, []⟩

/-- Cursor discipline of both flows of an endpoint. -/
structure CursorInv (st : SysState) : Prop where
  lowI : PagesInv st.low.pages
  highI : PagesInv st.high.pages

/-- Operation trace for the C9 witness: a two-byte write and a one-byte
read leave the head with a positive cursor. -/
def C9ops : List Op :=
  [Op.write 1 0 [7, 8] cleanWEnv, Op.read 1 0 1 cleanREnv]

/-- Resulting state of the C9 witness trace. -/
def C9st : SysState :=
  ⟨⟨0, 20480, [emptyPage]⟩, ⟨1, 20479, [⟨[7, 8], 1⟩]⟩, 0, 1, 0, []⟩

/-- Per-flow accounting invariant: well-shaped chain and `valid_bytes`
equal to the unread bytes present in the log. -/
structure FlowInv (f : Flow) : Prop where
  pinv : PagesInv f.pages
  cok : chainOk f.pages
  vs : f.valid_bytes = sumValid f.pages

/-- Whole-endpoint accounting invariant: both flows consistent and every
pending deferred job's reserved length within its staged buffer. -/
structure SysInv (st : SysState) : Prop where
  lowI : FlowInv st.low
  highI : FlowInv st.high
  jobs : ∀ j ∈ st.pending, j.len ≤ j.data.length

/-- Operation trace for the C2 witness: a deferred low write executed by
the worker, a synchronous high write, and a partial high read, all with
successful allocations. -/
def C2wops : List Op :=
  [Op.write 0 0 [3] cleanWEnv, Op.runJob [],
   Op.write 1 0 [5, 6] cleanWEnv, Op.read 1 0 1 cleanREnv]

/-- Resulting state of the C2 witness trace. -/
def C2wst : SysState :=
  ⟨⟨1, 20479, [⟨[3], 0⟩]⟩, ⟨1, 20479, [⟨[5, 6], 1⟩]⟩, 1, 1, 0, []⟩

/-- The staged buffer of the C2 counterexample: 4097 bytes, one more
than a page. -/
def C2data : List Nat := List.replicate 4097 42

/-- Operation trace of the C2 counterexample: the deferred write is
enqueued, then the worker's page allocation fails. -/
def C2ops : List Op := [Op.write 0 0 C2data cleanWEnv, Op.runJob [false]]

/-- Resulting state of the C2 counterexample: `valid_bytes[0]` credited
with 4097 although the log holds no bytes. -/
def C2st : SysState :=
  ⟨⟨4097, 16383, [emptyPage]⟩, ⟨0, 20480, [emptyPage]⟩, 4097, 0, 0, []⟩

/-- One user-visible write sequence on the high flow: each write must
return its full length (`return tot_written` after a complete append),
else the sequence is not "successful". -/
def writeSeq (st : SysState) : List (List Nat) → Option SysState
  | [] => some st
  | w :: ws =>
    let o := dev_write st 1 0 w cleanWEnv
    if o.ret = some ((w.length : Nat) : Int) then writeSeq o.st ws
    else none

/-- One user-visible read sequence on the high flow: concatenates the
meaningful prefixes (`return total_len - ret`) of the successive reads'
destination buffers. -/
def readSeq (st : SysState) : List Nat → Option (List Nat × SysState)
  | [] => some ([], st)
  | r :: rs =>
    let o := dev_read st 1 0 r cleanREnv
    match o.ret with
    | none => none
    | some n =>
      match readSeq o.st rs with
      | none => none
      | some q => some (o.buf.take n.toNat ++ q.1, q.2)

/-- State of the high flow after a successful write sequence has
accumulated the byte list `acc`. -/
structure HighAcc (st : SysState) (acc : List Nat) : Prop where
  pinv : PagesInv st.high.pages
  cok : chainOk st.high.pages
  unr : unreadBytes st.high.pages = acc
  vb : st.high.valid_bytes = ((acc.length : Nat) : Int)
  fb : st.high.total_free_bytes =
    (CAPACITY : Int) - ((acc.length : Nat) : Int)

/-- Written sequence of the C3 witness. -/
def C3ws : List (List Nat) := [[1, 2], [3]]

/-- State after the C3 witness writes. -/
def C3wst : SysState :=
  ⟨⟨0, 20480, [emptyPage]⟩, ⟨3, 20477, [⟨[1, 2, 3], 0⟩]⟩, 0, 3, 0, []⟩

/-- A state whose high flow is completely full: every page filled, no
free bytes (reachable by writing `CAPACITY` bytes). -/
def fullHighSt : SysState :=
  ⟨⟨0, 20480, [emptyPage]⟩,
   ⟨20480, 0, List.replicate 5 ⟨List.replicate 4096 7, 0⟩⟩,
   0, 20480, 0, []⟩

/-- Write environment whose blocking wait is interrupted by a signal. -/
def intrWEnv : WriteEnv :=
  ⟨true, 0, true, WaitRes.interrupted, true, true, true, true, []⟩

/-- Unfolding equation for `copyLoop` at length 0. -/
theorem copyLoop_zero (buf : List Nat) (pages : List Page) :
    copyLoop buf 0 pages = some (0, pages) := by
  cases pages <;> simp [copyLoop]

/-- Soundness of the copy loop: when it returns, the page cursors are
untouched, the page count is unchanged, well-formedness is preserved,
and (when the staging buffer holds at least `len` bytes, as it always
does in the driver) exactly `len` bytes were appended. -/
theorem copyLoop_some (buf : List Nat) (len : Nat) (pages : List Page)
    (w : Nat) (ps' : List Page)
    (h : copyLoop buf len pages = some (w, ps')) :
    ps'.map Page.read_offset = pages.map Page.read_offset ∧
    ps'.length = pages.length ∧
    (pagesWF pages → pagesWF ps') ∧
    (len ≤ buf.length → w = len ∧ sumFill ps' = sumFill pages + len) := by
  induction buf, len, pages using copyLoop.induct generalizing w ps' with
  | case1 t buf =>
    rw [copyLoop_zero] at h
    obtain ⟨rfl, rfl⟩ : 0 = w ∧ t = ps' := by simpa using h
    simp
  | case2 buf len hlen =>
    rw [copyLoop] at h
    simp [hlen] at h
  | case3 buf len hlen p ps space curr p' hcond hrec ih =>
    rw [copyLoop] at h
    simp only [if_neg hlen, if_pos hcond] at h
    rw [hrec] at h
    simp at h
  | case4 buf len hlen p ps space curr p' hcond r hrec ih =>
    rw [copyLoop] at h
    simp only [if_neg hlen, if_pos hcond] at h
    rw [hrec] at h
    obtain ⟨rfl, rfl⟩ : curr + r.1 = w ∧ p' :: r.2 = ps' := by simpa using h
    obtain ⟨ih1, ih2, ih3, ih4⟩ := ih r.1 r.2 (by rw [hrec])
    refine ⟨?_, ?_, ?_, ?_⟩
    · simp [ih1, p']
    · simp [ih2]
    · intro hwf
      intro q hq
      rcases List.mem_cons.mp hq with rfl | hq
      · obtain ⟨h1, h2⟩ := hwf p (by simp)
        constructor
        · simp [p']
          omega
        · exact hcond.1.le
      · exact ih3 (fun a ha => hwf a (by simp [ha])) q hq
    · intro hbuf
      have hcurr : curr ≤ len := Nat.min_le_left _ _
      have hlb : len - curr ≤ (buf.drop curr).length := by
        simp
        omega
      obtain ⟨hw, hs⟩ := ih4 hlb
      constructor
      · omega
      · have htake : (buf.take curr).length = curr := by
          simp
          omega
        simp [sumFill, p', htake] at hs ⊢
        omega
  | case5 buf len hlen p ps space curr p' hcond hpos =>
    rw [copyLoop] at h
    simp only [if_neg hlen, if_neg hcond] at h
    rw [if_pos hpos] at h
    cases h
  | case6 buf len hlen p ps space curr p' hcond hpos =>
    rw [copyLoop] at h
    simp only [if_neg hlen, if_neg hcond] at h
    rw [if_neg hpos] at h
    obtain ⟨rfl, rfl⟩ : curr = w ∧ p' :: ps = ps' := by simpa using h
    have hcurr0 : len - curr = 0 := by omega
    have hcurr : curr = len := by
      have : curr ≤ len := Nat.min_le_left _ _
      omega
    refine ⟨by simp [p'], by simp, ?_, ?_⟩
    · intro hwf
      intro q hq
      rcases List.mem_cons.mp hq with rfl | hq
      · obtain ⟨h1, h2⟩ := hwf p (by simp)
        have hsp : curr ≤ space := Nat.min_le_right _ _
        have : (buf.take curr).length ≤ curr := by simp
        constructor
        · simp [p']; omega
        · simp [p', space] at hsp ⊢
          omega
      · exact hwf q (by simp [hq])
    · intro hbuf
      have htake : (buf.take curr).length = curr := by simp; omega
      refine ⟨hcurr, ?_⟩
      simp [sumFill, p', htake]
      omega

/-- The unread bytes of a chain decompose headwise. -/
theorem unreadBytes_cons (p : Page) (ps : List Page) :
    unreadBytes (p :: ps) = p.unread ++ unreadBytes ps := by
  simp [unreadBytes]

/-- The unread bytes of the empty chain. -/
theorem unreadBytes_nil : unreadBytes [] = [] := rfl

/-- `sumValid` decomposes headwise. -/
theorem sumValid_cons (p : Page) (ps : List Page) :
    sumValid (p :: ps) =
      ((p.stream_content.length : Int) - (p.read_offset : Int)) +
        sumValid ps := by
  simp [sumValid]

/-- `sumFill` decomposes headwise. -/
theorem sumFill_cons (p : Page) (ps : List Page) :
    sumFill (p :: ps) = p.stream_content.length + sumFill ps := by
  simp [sumFill]

/-- A fresh page carries no bytes. -/
theorem emptyPage_unread : emptyPage.unread = [] := rfl

/-- A full head page may be prepended to a well-shaped chain. -/
theorem chainOk_cons (p : Page) (ps : List Page)
    (hp : p.stream_content.length = OBJECT_MAX_SIZE) (h : chainOk ps) :
    chainOk (p :: ps) := by
  cases ps with
  | nil => intro q hq; simp at hq
  | cons a l =>
    intro q hq
    rw [List.dropLast_cons₂] at hq
    rcases List.mem_cons.mp hq with rfl | hq
    · exact hp
    · exact h q hq

/-- The tail of a well-shaped chain is well shaped. -/
theorem chainOk_tail (p : Page) (ps : List Page) (h : chainOk (p :: ps)) :
    chainOk ps := by
  cases ps with
  | nil => intro q hq; simp at hq
  | cons a l =>
    intro q hq
    exact h q (by rw [List.dropLast_cons₂]; exact List.mem_cons_of_mem _ hq)

/-- A one-page chain is well shaped. -/
theorem chainOk_single (p : Page) : chainOk [p] := by
  intro q hq; simp at hq

/-- In a well-shaped chain a non-full head is the only page. -/
theorem chainOk_nonfull_head (p : Page) (ps : List Page)
    (h : chainOk (p :: ps))
    (hp : p.stream_content.length ≠ OBJECT_MAX_SIZE) : ps = [] := by
  cases ps with
  | nil => rfl
  | cons a l =>
    exact absurd (h p (by rw [List.dropLast_cons₂]; simp)) hp

/-- With an all-success oracle the allocation loop allocates exactly
`⌈tempLen / OBJECT_MAX_SIZE⌉` pages and consumes nothing. -/
theorem allocLoop_empty (tempLen : Int) :
    allocLoop tempLen [] =
      (true, (tempLen + ((OBJECT_MAX_SIZE : Int) - 1)).toNat / OBJECT_MAX_SIZE,
       []) := by
  have hC : OBJECT_MAX_SIZE = 4096 := rfl
  have H : ∀ n : Nat, ∀ t : Int, t.toNat ≤ n →
      allocLoop t [] =
        (true, (t + ((OBJECT_MAX_SIZE : Int) - 1)).toNat / OBJECT_MAX_SIZE,
         []) := by
    intro n
    induction n with
    | zero =>
      intro t hle
      have hpos : ¬ 0 < t := by omega
      rw [allocLoop, if_neg hpos]
      simp only [Prod.mk.injEq, true_and, and_true]
      simp only [hC]
      omega
    | succ n ih =>
      intro t hle
      by_cases hpos : 0 < t
      · rw [allocLoop, if_pos hpos,
          if_pos (show allocNext [] = true from rfl)]
        have hrest : allocRest [] = ([] : List Bool) := rfl
        rw [hrest, ih (t - (OBJECT_MAX_SIZE : Int)) (by simp only [hC]; omega)]
        simp only [Prod.mk.injEq, true_and, and_true]
        simp only [hC]
        omega
      · rw [allocLoop, if_neg hpos]
        simp only [Prod.mk.injEq, true_and, and_true]
        simp only [hC]
        omega
  exact H tempLen.toNat tempLen le_rfl

/-- Decomposition produced by the first walk of `write_data`: the input
chain splits as skipped-full-prefix, target, suffix. -/
theorem walk1_eq (p : Page) (ps : List Page) :
    p :: ps = (walk1 p ps).1 ++ (walk1 p ps).2.1 :: (walk1 p ps).2.2 ∧
    ∀ q ∈ (walk1 p ps).1, q.stream_content.length = OBJECT_MAX_SIZE := by
  induction p, ps using walk1.induct with
  | case1 p hp =>
    rw [walk1, if_pos hp]
    simp
  | case2 p hp q qs ih =>
    rw [walk1, if_pos hp]
    simp only [List.cons_append]
    refine ⟨by rw [← ih.1], ?_⟩
    intro a ha
    rcases List.mem_cons.mp ha with rfl | ha
    · exact hp
    · exact ih.2 a ha
  | case3 ps p hp =>
    rw [walk1.eq_def, if_neg hp]
    simp

/-- On a well-shaped chain the first walk reaches the last page and
leaves an empty suffix. -/
theorem walk1_chainOk (p : Page) (ps : List Page)
    (h : chainOk (p :: ps)) : (walk1 p ps).2.2 = [] := by
  induction p, ps using walk1.induct with
  | case1 p hp => rw [walk1, if_pos hp]
  | case2 p hp q qs ih =>
    rw [walk1, if_pos hp]
    exact ih (chainOk_tail _ _ h)
  | case3 ps p hp =>
    rw [walk1.eq_def, if_neg hp]
    exact chainOk_nonfull_head p ps h hp

/-- The second walk of `write_data` on a chain made of a full prefix, a
non-full page, and a suffix. -/
theorem walk2_append (A : List Page) (t : Page) (B : List Page)
    (hA : ∀ q ∈ A, q.stream_content.length = OBJECT_MAX_SIZE)
    (ht : t.stream_content.length ≠ OBJECT_MAX_SIZE) :
    walk2 (A ++ t :: B) = some (A, t, B) := by
  induction A with
  | nil => simp [walk2, if_neg ht]
  | cons a A' ih =>
    have ha : a.stream_content.length = OBJECT_MAX_SIZE := hA a (by simp)
    simp only [List.cons_append, walk2, if_pos ha, List.append_eq]
    rw [ih (fun q hq => hA q (by simp [hq]))]
    rfl

/-- The second walk fails (null dereference) exactly on an all-full
chain. -/
theorem walk2_none_iff (c : List Page) :
    walk2 c = none ↔ ∀ q ∈ c, q.stream_content.length = OBJECT_MAX_SIZE := by
  induction c with
  | nil => simp [walk2]
  | cons p ps ih =>
    by_cases hp : p.stream_content.length = OBJECT_MAX_SIZE
    · simp only [walk2, if_pos hp]
      constructor
      · intro h q hq
        rcases List.mem_cons.mp hq with rfl | hq
        · exact hp
        · exact (ih.mp (by cases hw : walk2 ps <;> simp [hw] at h ⊢)) q hq
      · intro h
        rw [ih.mpr (fun q hq => h q (by simp [hq]))]
        rfl
    · simp only [walk2, if_neg hp]
      constructor
      · intro h; cases h
      · intro h; exact absurd (h p (by simp)) hp

/-- Decomposition produced by a successful second walk. -/
theorem walk2_some (c : List Page) (A : List Page) (t : Page)
    (B : List Page) (h : walk2 c = some (A, t, B)) :
    c = A ++ t :: B ∧
    (∀ q ∈ A, q.stream_content.length = OBJECT_MAX_SIZE) ∧
    t.stream_content.length ≠ OBJECT_MAX_SIZE := by
  induction c generalizing A with
  | nil => cases h
  | cons p ps ih =>
    by_cases hp : p.stream_content.length = OBJECT_MAX_SIZE
    · rw [walk2, if_pos hp] at h
      cases hw : walk2 ps with
      | none => rw [hw] at h; cases h
      | some r =>
        rw [hw] at h
        obtain ⟨rfl, rfl, rfl⟩ : p :: r.1 = A ∧ r.2.1 = t ∧ r.2.2 = B := by
          simpa [Prod.ext_iff] using h
        obtain ⟨h1, h2, h3⟩ := ih r.1 (by rw [hw])
        refine ⟨by rw [List.cons_append, ← h1], ?_, h3⟩
        intro q hq
        rcases List.mem_cons.mp hq with rfl | hq
        · exact hp
        · exact h2 q hq
    · rw [walk2, if_neg hp] at h
      obtain ⟨rfl, rfl, rfl⟩ : ([] : List Page) = A ∧ p = t ∧ ps = B := by
        simpa [Prod.ext_iff] using h
      exact ⟨rfl, by simp, hp⟩

/-- Auxiliary: dropping at most the first list of an append. -/
theorem drop_append_le {α : Type} (a b : List α) (n : Nat)
    (h : n ≤ a.length) : (a ++ b).drop n = a.drop n ++ b := by
  rw [List.drop_append_eq_append_drop, Nat.sub_eq_zero_of_le h,
    List.drop_zero]

/-- Pouring `len` bytes into a non-full target page followed by `m`
fresh pages: the loop succeeds, appends the bytes in order, and (because
the allocation loop allocates no more pages than needed, expressed by
the tightness hypothesis) leaves a well-shaped chain. -/
theorem copyLoop_shape (m : Nat) :
    ∀ (t : Page) (buf : List Nat) (len : Nat),
    t.read_offset ≤ t.stream_content.length →
    t.stream_content.length ≤ OBJECT_MAX_SIZE →
    len ≤ buf.length →
    len ≤ (OBJECT_MAX_SIZE - t.stream_content.length) +
      OBJECT_MAX_SIZE * m →
    (m = 0 ∨
      (OBJECT_MAX_SIZE - t.stream_content.length) +
        OBJECT_MAX_SIZE * (m - 1) < len) →
    ∃ ps', copyLoop buf len (t :: List.replicate m emptyPage) =
        some (len, ps') ∧
      unreadBytes ps' = t.unread ++ buf.take len ∧
      chainOk ps' := by
  have hC : OBJECT_MAX_SIZE = 4096 := rfl
  induction m with
  | zero =>
    intro t buf len hofs htc hb hcap htight
    by_cases hlen : len = 0
    · subst hlen
      refine ⟨[t], copyLoop_zero _ _, by simp [unreadBytes], chainOk_single t⟩
    · have hsp : len ≤ OBJECT_MAX_SIZE - t.stream_content.length := by
        simpa using hcap
      rw [copyLoop]
      rw [if_neg hlen]
      simp only
      have hmin : min len (OBJECT_MAX_SIZE - t.stream_content.length) = len :=
        Nat.min_eq_left hsp
      rw [hmin]
      have hz : len - len = 0 := Nat.sub_self len
      rw [if_neg (by rw [hz]; exact fun hc => absurd hc.2 (by omega)),
        if_neg (by rw [hz]; omega)]
      refine ⟨[⟨t.stream_content ++ buf.take len, t.read_offset⟩], rfl, ?_,
        chainOk_single _⟩
      simp only [unreadBytes_cons, unreadBytes_nil, List.append_nil,
        Page.unread]
      rw [drop_append_le _ _ _ hofs]
  | succ m ih =>
    intro t buf len hofs htc hb hcap htight
    have hfill : t.stream_content.length ≤ 4096 := by simpa [hC] using htc
    have hcap' : len ≤ (4096 - t.stream_content.length) + 4096 * (m + 1) := by
      simpa [hC] using hcap
    have htight' : (4096 - t.stream_content.length) + 4096 * m < len := by
      rcases htight with h0 | hlt
      · omega
      · simpa [hC] using hlt
    have hsp : OBJECT_MAX_SIZE - t.stream_content.length < len := by
      simp only [hC]
      omega
    have hlen : len ≠ 0 := by omega
    rw [copyLoop, if_neg hlen]
    simp only [List.replicate_succ]
    have hmin : min len (OBJECT_MAX_SIZE - t.stream_content.length) =
        OBJECT_MAX_SIZE - t.stream_content.length :=
      Nat.min_eq_right (le_of_lt hsp)
    rw [hmin]
    have hfull : (t.stream_content ++
        buf.take (OBJECT_MAX_SIZE - t.stream_content.length)).length =
        OBJECT_MAX_SIZE := by
      rw [List.length_append, List.length_take]
      simp only [hC]
      omega
    rw [if_pos ⟨hfull, by simp only [hC]; omega⟩]
    obtain ⟨rest', hrec, hunread, hchain⟩ :=
      ih emptyPage (buf.drop (OBJECT_MAX_SIZE - t.stream_content.length))
        (len - (OBJECT_MAX_SIZE - t.stream_content.length))
        (by simp [emptyPage]) (by simp [emptyPage])
        (by rw [List.length_drop]; simp only [hC]; omega)
        (by simp only [emptyPage, List.length_nil, Nat.sub_zero, hC]; omega)
        (by
          rcases Nat.eq_zero_or_pos m with rfl | hm
          · exact Or.inl rfl
          · refine Or.inr ?_
            simp only [emptyPage, List.length_nil, Nat.sub_zero, hC]
            omega)
    rw [hrec]
    refine ⟨⟨t.stream_content ++
        buf.take (OBJECT_MAX_SIZE - t.stream_content.length),
        t.read_offset⟩ :: rest',
      ?_, ?_, ?_⟩
    · have harith : OBJECT_MAX_SIZE - t.stream_content.length +
          (len - (OBJECT_MAX_SIZE - t.stream_content.length)) = len := by
        omega
      simp only [harith]
    · rw [unreadBytes_cons, hunread]
      simp only [emptyPage_unread, List.nil_append, Page.unread]
      rw [drop_append_le _ _ _ hofs, List.append_assoc]
      have hsplit : buf.take len =
          buf.take (OBJECT_MAX_SIZE - t.stream_content.length) ++
            (buf.drop (OBJECT_MAX_SIZE - t.stream_content.length)).take
              (len - (OBJECT_MAX_SIZE - t.stream_content.length)) := by
        rw [← List.take_add, Nat.add_sub_cancel' (le_of_lt hsp)]
      rw [hsplit]
      simp [emptyPage]
    · exact chainOk_cons _ _ hfull hchain

/-- The consume loop copies exactly the requested number of bytes when it
returns. -/
theorem consumeLoop_len (len : Nat) (pages : List Page) (bs : List Nat)
    (ps' : List Page) (h : consumeLoop len pages = some (bs, ps')) :
    bs.length = len := by
  induction len, pages using consumeLoop.induct generalizing bs ps' with
  | case1 t =>
    rw [consumeLoop.eq_def] at h
    simp only [if_pos rfl] at h
    obtain ⟨rfl, rfl⟩ : ([] : List Nat) = bs ∧ t = ps' := by simpa using h
    rfl
  | case2 len hlen =>
    rw [consumeLoop] at h
    simp [hlen] at h
  | case3 len hlen p ps avail toRead p' hfullc hrec ih =>
    rw [consumeLoop] at h
    simp only [if_neg hlen, if_pos hfullc] at h
    rw [hrec] at h
    cases h
  | case4 len hlen p ps avail toRead p' hfullc r hrec ih =>
    rw [consumeLoop] at h
    simp only [if_neg hlen, if_pos hfullc] at h
    rw [hrec] at h
    obtain ⟨rfl, rfl⟩ :
        (p.stream_content.drop p.read_offset).take toRead ++ r.1 = bs ∧
          r.2 = ps' := by simpa using h
    have h1 := ih r.1 r.2 (by rw [hrec])
    have htR : toRead ≤ avail := Nat.min_le_right _ _
    simp only [List.length_append, List.length_take, List.length_drop, h1]
    simp only [avail] at htR
    omega
  | case5 len hlen p ps avail toRead p' hfullc hz =>
    rw [consumeLoop] at h
    simp only [if_neg hlen, if_neg hfullc, if_pos hz] at h
    obtain ⟨rfl, rfl⟩ :
        (p.stream_content.drop p.read_offset).take toRead = bs ∧
          p' :: ps = ps' := by simpa using h
    have htR : toRead ≤ avail := Nat.min_le_right _ _
    have htl : toRead ≤ len := Nat.min_le_left _ _
    simp only [List.length_take, List.length_drop]
    simp only [avail] at htR
    simp only [toRead] at htl hz ⊢
    omega
  | case6 len hlen p ps avail toRead p' hfullc hz =>
    rw [consumeLoop] at h
    simp only [if_neg hlen, if_neg hfullc, if_neg hz] at h
    cases h

/-- Soundness of the read consume loop on a well-formed chain: the bytes
delivered are the first `len` unread bytes, the remaining unread bytes
are the rest, the by-page byte count drops by `len`, and the cursor
discipline (only the head page has a non-zero cursor, no cursor sits at
the page size, cursors stay within fill) is maintained; the chain shape
is also maintained. -/
theorem consumeLoop_sound (len : Nat) (pages : List Page) (bs : List Nat)
    (ps' : List Page) (h : consumeLoop len pages = some (bs, ps'))
    (hwf : pagesWF pages) (htz : tailZero pages)
    (hnfc : noFullCursor pages) :
    bs = (unreadBytes pages).take len ∧
    unreadBytes ps' = (unreadBytes pages).drop len ∧
    sumValid ps' = sumValid pages - (len : Int) ∧
    pagesWF ps' ∧ tailZero ps' ∧ noFullCursor ps' ∧
    (chainOk pages → chainOk ps') := by
  have hC : OBJECT_MAX_SIZE = 4096 := rfl
  induction len, pages using consumeLoop.induct generalizing bs ps' with
  | case1 t =>
    rw [consumeLoop.eq_def] at h
    simp only [if_pos rfl] at h
    obtain ⟨rfl, rfl⟩ : ([] : List Nat) = bs ∧ t = ps' := by simpa using h
    simp [hwf, htz, hnfc]
  | case2 len hlen =>
    rw [consumeLoop] at h
    simp [hlen] at h
  | case3 len hlen p ps avail toRead p' hfullc hrec ih =>
    rw [consumeLoop] at h
    simp only [if_neg hlen, if_pos hfullc] at h
    rw [hrec] at h
    cases h
  | case4 len hlen p ps avail toRead p' hfullc r hrec ih =>
    rw [consumeLoop] at h
    simp only [if_neg hlen, if_pos hfullc] at h
    rw [hrec] at h
    obtain ⟨rfl, rfl⟩ :
        (p.stream_content.drop p.read_offset).take toRead ++ r.1 = bs ∧
          r.2 = ps' := by simpa using h
    obtain ⟨hple, hpsz⟩ := hwf p (by simp)
    have htzps : ∀ q ∈ ps, q.read_offset = 0 := fun q hq => htz q (by simpa)
    have hwfps : pagesWF ps := fun q hq => hwf q (by simp [hq])
    have htzps' : tailZero ps := fun q hq => htzps q (List.mem_of_mem_tail hq)
    have hnfcps : noFullCursor ps := fun q hq => by
      rw [htzps q hq, hC]; omega
    have htR : toRead ≤ avail := Nat.min_le_right _ _
    have htl : toRead ≤ len := Nat.min_le_left _ _
    -- a page whose cursor lands on the page boundary was completely full
    -- and completely drained
    have hfull : p.stream_content.length = OBJECT_MAX_SIZE ∧
        toRead = avail := by
      simp only [p'] at hfullc
      simp only [avail] at htR ⊢
      constructor <;> omega
    have hulen : p.unread.length = avail := by
      simp [Page.unread, avail]
    obtain ⟨ih1, ih2, ih3, ih4, ih5, ih6, ih7⟩ :=
      ih r.1 r.2 (by rw [hrec]) hwfps htzps' hnfcps
    have havlen : avail ≤ len := by
      rcases Nat.lt_or_ge avail len with hlt | hge
      · omega
      · have : toRead = len := by simp [toRead, avail]; omega
        omega
    refine ⟨?_, ?_, ?_, ih4, ih5, ih6, ?_⟩
    · rw [unreadBytes_cons, ih1, List.take_append_eq_append_take]
      congr 1
      · rw [Page.unread]
        rw [List.take_of_length_le (by simp; omega),
          List.take_of_length_le (by simp; omega)]
      · congr 1
        rw [hulen]
        simp only [avail] at hfull ⊢
        omega
    · have hA : p.unread.drop len = [] :=
        List.drop_eq_nil_of_le (by rw [hulen]; omega)
      rw [unreadBytes_cons, List.drop_append_eq_append_drop, hA,
        List.nil_append, ih2]
      congr 1
      rw [hulen]
      simp only [avail] at hfull ⊢
      omega
    · rw [sumValid_cons, ih3]
      simp only [avail] at hfull havlen
      omega
    · intro hco
      exact ih7 (chainOk_tail _ _ hco)
  | case5 len hlen p ps avail toRead p' hfullc hz =>
    rw [consumeLoop] at h
    simp only [if_neg hlen, if_neg hfullc, if_pos hz] at h
    obtain ⟨rfl, rfl⟩ :
        (p.stream_content.drop p.read_offset).take toRead = bs ∧
          p' :: ps = ps' := by simpa using h
    obtain ⟨hple, hpsz⟩ := hwf p (by simp)
    have htzps : ∀ q ∈ ps, q.read_offset = 0 := fun q hq => htz q (by simpa)
    have htR : toRead ≤ avail := Nat.min_le_right _ _
    have htl : toRead ≤ len := Nat.min_le_left _ _
    have hteq : toRead = len := by omega
    have hlav : len ≤ avail := by omega
    have hulen : p.unread.length = avail := by simp [Page.unread, avail]
    refine ⟨?_, ?_, ?_, ?_, ?_, ?_, ?_⟩
    · rw [unreadBytes_cons, List.take_append_eq_append_take]
      have h1 : p.unread.drop len = [] → True := fun _ => trivial
      have h2 : len - p.unread.length = 0 := by omega
      rw [h2, List.take_zero, List.append_nil, hteq, Page.unread]
    · rw [unreadBytes_cons, unreadBytes_cons,
        List.drop_append_eq_append_drop, hulen]
      have h2 : len - avail = 0 := by omega
      rw [h2, List.drop_zero]
      congr 1
      simp only [Page.unread, p']
      rw [List.drop_drop]
      congr 1
      omega
    · rw [sumValid_cons, sumValid_cons]
      simp only [avail] at hlav
      push_cast
      omega
    · intro q hq
      rcases List.mem_cons.mp hq with rfl | hq
      · simp only [avail] at hlav
        constructor
        · simp; omega
        · simpa using hpsz
      · exact hwf q (by simp [hq])
    · intro q hq
      simp only [List.tail_cons] at hq
      exact htzps q hq
    · intro q hq
      rcases List.mem_cons.mp hq with rfl | hq
      · show p.read_offset + toRead < OBJECT_MAX_SIZE
        have h1 : p.read_offset + toRead ≠ OBJECT_MAX_SIZE := hfullc
        have h3 : toRead ≤ avail := Nat.min_le_right _ _
        simp only [avail] at h3
        omega
      · rw [htzps q hq, hC]
        omega
    · intro hco
      intro q hq
      cases ps with
      | nil => simp at hq
      | cons a l =>
        rw [List.dropLast_cons₂] at hq
        rcases List.mem_cons.mp hq with rfl | hq
        · simpa [p'] using hco p (by rw [List.dropLast_cons₂]; simp)
        · exact hco q (by rw [List.dropLast_cons₂]; exact
            List.mem_cons_of_mem _ hq)
  | case6 len hlen p ps avail toRead p' hfullc hz =>
    rw [consumeLoop] at h
    simp only [if_neg hlen, if_neg hfullc, if_neg hz] at h
    cases h

/-- Completeness of the consume loop: on a well-formed, well-shaped chain
holding at least `len` unread bytes the loop terminates successfully (the
clamp `len ≤ valid_bytes` in `dev_read` establishes exactly this when the
counters are consistent). -/
theorem consumeLoop_complete (pages : List Page) :
    ∀ len : Nat, len ≤ (unreadBytes pages).length →
    pagesWF pages → tailZero pages → chainOk pages →
    ∃ r, consumeLoop len pages = some r := by
  have hC : OBJECT_MAX_SIZE = 4096 := rfl
  induction pages with
  | nil =>
    intro len hle _ _ _
    simp only [unreadBytes_nil, List.length_nil, Nat.le_zero] at hle
    subst hle
    exact ⟨([], []), by rw [consumeLoop.eq_def]; simp⟩
  | cons p ps ih =>
    intro len hle hwf htz hco
    by_cases hlen : len = 0
    · subst hlen
      exact ⟨([], p :: ps), by rw [consumeLoop.eq_def]; simp⟩
    · obtain ⟨hple, hpsz⟩ := hwf p (by simp)
      have hulen : p.unread.length =
          p.stream_content.length - p.read_offset := by
        simp [Page.unread]
      rw [unreadBytes_cons, List.length_append] at hle
      by_cases hadv : p.read_offset +
          min len (p.stream_content.length - p.read_offset) =
          OBJECT_MAX_SIZE
      · obtain ⟨r, hr⟩ := ih (len -
            min len (p.stream_content.length - p.read_offset))
          (by omega)
          (fun q hq => hwf q (by simp [hq]))
          (fun q hq => htz q (by simp [List.mem_of_mem_tail hq]))
          (chainOk_tail _ _ hco)
        refine ⟨((p.stream_content.drop p.read_offset).take
            (min len (p.stream_content.length - p.read_offset)) ++ r.1,
          r.2), ?_⟩
        rw [consumeLoop]
        simp only [if_neg hlen]
        rw [if_pos hadv, hr]
      · -- the head page is not drained to the boundary: it must satisfy
        -- `len ≤ avail`, else the head would be a non-full non-last page
        have hstop : len -
            min len (p.stream_content.length - p.read_offset) = 0 := by
          by_cases hfull : p.stream_content.length = OBJECT_MAX_SIZE
          · omega
          · have hps : ps = [] := chainOk_nonfull_head p ps hco hfull
            subst hps
            simp only [unreadBytes_nil, List.length_nil, Nat.add_zero] at hle
            omega
        refine ⟨((p.stream_content.drop p.read_offset).take
            (min len (p.stream_content.length - p.read_offset)),
          ⟨p.stream_content, p.read_offset +
            min len (p.stream_content.length - p.read_offset)⟩ :: ps), ?_⟩
        rw [consumeLoop]
        simp only [if_neg hlen]
        rw [if_neg hadv, if_pos hstop]

/-- `unreadBytes` distributes over append. -/
theorem unreadBytes_append (a b : List Page) :
    unreadBytes (a ++ b) = unreadBytes a ++ unreadBytes b := by
  simp [unreadBytes]

/-- `sumValid` distributes over append. -/
theorem sumValid_append (a b : List Page) :
    sumValid (a ++ b) = sumValid a + sumValid b := by
  simp [sumValid]

/-- `sumValid` of a batch of fresh pages. -/
theorem sumValid_replicate (k : Nat) :
    sumValid (List.replicate k emptyPage) = 0 := by
  induction k with
  | zero => rfl
  | succ k ih => rw [List.replicate_succ, sumValid_cons, ih]; rfl

/-- `sumValid` as total fill minus total cursor. -/
theorem sumValid_fill_offs (ps : List Page) :
    sumValid ps = (sumFill ps : Int) -
      ((ps.map Page.read_offset).sum : Int) := by
  induction ps with
  | nil => rfl
  | cons p l ih =>
    rw [sumValid_cons, sumFill_cons, ih, List.map_cons, List.sum_cons]
    push_cast
    ring

/-- Cursor-list equality transfers the non-head-cursor-zero property. -/
theorem tailZero_of_offs (ps ps' : List Page)
    (h : ps'.map Page.read_offset = ps.map Page.read_offset)
    (htz : tailZero ps) : tailZero ps' := by
  intro q hq
  have h1 : q.read_offset ∈ (ps'.map Page.read_offset).tail := by
    rw [← List.map_tail]
    exact List.mem_map_of_mem _ hq
  rw [h, ← List.map_tail] at h1
  obtain ⟨r, hr, hre⟩ := List.mem_map.mp h1
  rw [← hre]
  exact htz r hr

/-- Cursor-list equality transfers the no-boundary-cursor property. -/
theorem noFullCursor_of_offs (ps ps' : List Page)
    (h : ps'.map Page.read_offset = ps.map Page.read_offset)
    (hn : noFullCursor ps) : noFullCursor ps' := by
  intro q hq
  have h1 : q.read_offset ∈ ps'.map Page.read_offset :=
    List.mem_map_of_mem _ hq
  rw [h] at h1
  obtain ⟨r, hr, hre⟩ := List.mem_map.mp h1
  rw [← hre]
  exact hn r hr

/-- An all-full prefix may be prepended to a well-shaped chain. -/
theorem chainOk_append_full (A B : List Page)
    (hA : ∀ q ∈ A, q.stream_content.length = OBJECT_MAX_SIZE)
    (hB : chainOk B) : chainOk (A ++ B) := by
  induction A with
  | nil => simpa using hB
  | cons a A' ih =>
    rw [List.cons_append]
    refine chainOk_cons _ _ (hA a (by simp)) ?_
    exact ih (fun q hq => hA q (by simp [hq]))

/-- Replacing the suffix after the walk-1 target by fresh pages keeps the
cursor discipline. -/
theorem pagesInv_replaceSuf (A : List Page) (t : Page) (B : List Page)
    (k : Nat) (h : PagesInv (A ++ t :: B)) :
    PagesInv (A ++ t :: List.replicate k emptyPage) := by
  have hC : OBJECT_MAX_SIZE = 4096 := rfl
  have hrep : ∀ q ∈ List.replicate k emptyPage, q = emptyPage :=
    fun q hq => List.eq_of_mem_replicate hq
  refine ⟨?_, ?_, ?_⟩
  · intro q hq
    rcases List.mem_append.mp hq with hq | hq
    · exact h.wf q (List.mem_append.mpr (Or.inl hq))
    · rcases List.mem_cons.mp hq with rfl | hq
      · exact h.wf q (List.mem_append.mpr (Or.inr (by simp)))
      · rw [hrep q hq]
        constructor <;> simp [emptyPage]
  · cases A with
    | nil =>
      intro q hq
      simp only [List.nil_append, List.tail_cons] at hq
      rw [hrep q hq]
      rfl
    | cons a A' =>
      intro q hq
      simp only [List.cons_append, List.tail_cons] at hq
      rcases List.mem_append.mp hq with hq | hq
      · exact h.tz q (by simp [List.tail_cons, hq])
      · rcases List.mem_cons.mp hq with rfl | hq
        · exact h.tz q (by simp [List.tail_cons])
        · rw [hrep q hq]
          rfl
  · intro q hq
    rcases List.mem_append.mp hq with hq | hq
    · exact h.nfc q (List.mem_append.mpr (Or.inl hq))
    · rcases List.mem_cons.mp hq with rfl | hq
      · exact h.nfc q (List.mem_append.mpr (Or.inr (by simp)))
      · rw [hrep q hq]
        simp [emptyPage, hC]

/-- The copy phase of `write_data` preserves the cursor discipline of the
chain regardless of outcome. -/
theorem copyPhase_pagesInv (len : Nat) (buf : List Nat)
    (chain : List Page) (o : List Bool) (h : PagesInv chain) :
    PagesInv (copyPhase len buf chain o).pages := by
  rw [copyPhase]
  split
  · exact h
  · rename_i w hw
    split
    · exact h
    · rename_i r hcl
      obtain ⟨hdec, hfullA, hfullt⟩ := walk2_some chain w.1 w.2.1 w.2.2
        (by rw [hw])
      obtain ⟨hoffs, hlen, hwf, _⟩ :=
        copyLoop_some buf len (w.2.1 :: w.2.2) r.1 r.2 hcl
      have hoffsAll : (w.1 ++ r.2).map Page.read_offset =
          chain.map Page.read_offset := by
        rw [hdec, List.map_append, List.map_append, hoffs]
      refine ⟨?_, ?_, ?_⟩
      · intro q hq
        rcases List.mem_append.mp hq with hq | hq
        · exact h.wf q (by rw [hdec]; exact List.mem_append.mpr (Or.inl hq))
        · refine hwf ?_ q hq
          intro a ha
          exact h.wf a (by rw [hdec]; exact List.mem_append.mpr (Or.inr ha))
      · exact tailZero_of_offs chain _ hoffsAll h.tz
      · exact noFullCursor_of_offs chain _ hoffsAll h.nfc

/-- `write_data` preserves the cursor discipline of the chain under any
allocation oracle and any outcome (success, `-ENOMEM`, crash). -/
theorem write_data_pagesInv (len : Nat) (buf : List Nat)
    (pages : List Page) (o : List Bool) (h : PagesInv pages) :
    PagesInv (write_data len buf pages o).pages := by
  have hcore : ∀ (p0 : Page) (ps0 : List Page) (o' : List Bool),
      PagesInv (p0 :: ps0) →
      PagesInv (write_dataCore len buf p0 ps0 o').pages := by
    intro p0 ps0 o' hInv
    rw [write_dataCore]
    obtain ⟨hdec, hfullA⟩ := walk1_eq p0 ps0
    by_cases hsp : OBJECT_MAX_SIZE -
        (walk1 p0 ps0).2.1.stream_content.length < len
    · rw [if_pos hsp]
      simp only
      by_cases hk : (allocLoop ((len : Int) -
          ((OBJECT_MAX_SIZE : Nat) -
            (walk1 p0 ps0).2.1.stream_content.length : Nat)) o').2.1 = 0
      · rw [if_pos hk]
        rw [hdec] at hInv
        by_cases ha : (allocLoop ((len : Int) -
            ((OBJECT_MAX_SIZE : Nat) -
              (walk1 p0 ps0).2.1.stream_content.length : Nat)) o').1
        · rw [if_pos ha]
          exact copyPhase_pagesInv _ _ _ _ hInv
        · rw [if_neg ha]
          exact hInv
      · rw [if_neg hk]
        rw [hdec] at hInv
        have hInv' := pagesInv_replaceSuf _ _ _
          ((allocLoop ((len : Int) - ((OBJECT_MAX_SIZE : Nat) -
            (walk1 p0 ps0).2.1.stream_content.length : Nat)) o').2.1) hInv
        by_cases ha : (allocLoop ((len : Int) -
            ((OBJECT_MAX_SIZE : Nat) -
              (walk1 p0 ps0).2.1.stream_content.length : Nat)) o').1
        · rw [if_pos ha]
          exact copyPhase_pagesInv _ _ _ _ hInv'
        · rw [if_neg ha]
          exact hInv'
    · rw [if_neg hsp]
      rw [hdec] at hInv
      exact copyPhase_pagesInv _ _ _ _ hInv
  cases pages with
  | nil =>
    rw [write_data]
    by_cases ha : allocNext o
    · rw [if_pos ha]
      refine hcore _ _ _ ⟨?_, ?_, ?_⟩
      · intro q hq
        rcases List.mem_cons.mp hq with rfl | hq
        · constructor <;> simp [emptyPage]
        · simp at hq
      · intro q hq
        simp at hq
      · intro q hq
        rcases List.mem_cons.mp hq with rfl | hq
        · simp [emptyPage, OBJECT_MAX_SIZE]
        · simp at hq
    · rw [if_neg ha]
      exact ⟨fun q hq => by simp at hq, fun q hq => by simp at hq,
        fun q hq => by simp at hq⟩
  | cons p ps =>
    rw [write_data]
    exact hcore p ps o h

/-- Fresh pages contribute no fill. -/
theorem sumFill_replicate_empty (k : Nat) :
    sumFill (List.replicate k emptyPage) = 0 := by
  induction k with
  | zero => rfl
  | succ k ih => rw [List.replicate_succ, sumFill_cons, ih]; rfl

/-- Number of pages the allocation loop creates for a write of `len`
bytes into a target page with fill `fl`: enough for the bytes, and not
one page more. -/
theorem allocCount_facts (len fl k : Nat)
    (hk : k = ((len : Int) - ((OBJECT_MAX_SIZE - fl : Nat) : Int) +
      ((OBJECT_MAX_SIZE : Int) - 1)).toNat / OBJECT_MAX_SIZE)
    (hsp : OBJECT_MAX_SIZE - fl < len) (hfl : fl ≤ OBJECT_MAX_SIZE) :
    len ≤ (OBJECT_MAX_SIZE - fl) + OBJECT_MAX_SIZE * k ∧
    (OBJECT_MAX_SIZE - fl) + OBJECT_MAX_SIZE * (k - 1) < len ∧ k ≠ 0 := by
  have hC4 : OBJECT_MAX_SIZE = 4096 := rfl
  subst hk
  simp only [hC4]
  omega

/-- The copy phase on a chain consisting of an all-full prefix, a
non-full target and enough fresh pages: it copies exactly `len` bytes,
appends them after the existing unread bytes, raises the by-page count
by `len`, and leaves a well-shaped chain. -/
theorem copyPhase_shape_ok (Apre : List Page) (t : Page) (m len n : Nat)
    (buf : List Nat) (ps' : List Page) (o o' : List Bool)
    (hA : ∀ q ∈ Apre, q.stream_content.length = OBJECT_MAX_SIZE)
    (ht : t.stream_content.length ≠ OBJECT_MAX_SIZE)
    (hofs : t.read_offset ≤ t.stream_content.length)
    (htfill : t.stream_content.length ≤ OBJECT_MAX_SIZE)
    (hb : len ≤ buf.length)
    (hcap : len ≤ (OBJECT_MAX_SIZE - t.stream_content.length) +
      OBJECT_MAX_SIZE * m)
    (htight : m = 0 ∨
      (OBJECT_MAX_SIZE - t.stream_content.length) +
        OBJECT_MAX_SIZE * (m - 1) < len)
    (h : copyPhase len buf (Apre ++ t :: List.replicate m emptyPage) o =
      ⟨.ok n, ps', o'⟩) :
    n = len ∧
    unreadBytes ps' = unreadBytes Apre ++ t.unread ++ buf.take len ∧
    sumValid ps' = sumValid Apre +
      ((t.stream_content.length : Int) - (t.read_offset : Int)) +
      (len : Int) ∧
    chainOk ps' ∧ o' = o := by
  have hw2 := walk2_append Apre t (List.replicate m emptyPage) hA ht
  obtain ⟨res, hcl, hunread, hchainres⟩ :=
    copyLoop_shape m t buf len hofs htfill hb hcap htight
  have hcp : copyPhase len buf (Apre ++ t :: List.replicate m emptyPage) o =
      ⟨.ok len, Apre ++ res, o⟩ := by
    rw [copyPhase, hw2]
    simp only [hcl]
  rw [hcp] at h
  obtain ⟨h1, h2, h3⟩ : len = n ∧ Apre ++ res = ps' ∧ o = o' := by
    simpa [WDOut.mk.injEq] using h
  subst h1; subst h2; subst h3
  obtain ⟨hoffs, _, _, hlen4⟩ :=
    copyLoop_some buf len (t :: List.replicate m emptyPage) len res hcl
  obtain ⟨_, hsf⟩ := hlen4 hb
  have hsv : sumValid res =
      ((t.stream_content.length : Int) - (t.read_offset : Int)) +
        (len : Int) := by
    rw [sumValid_fill_offs, hoffs, hsf, sumFill_cons,
      sumFill_replicate_empty]
    simp [emptyPage, List.sum_replicate]
    ring
  refine ⟨rfl, ?_, ?_, ?_, rfl⟩
  · rw [unreadBytes_append, hunread, List.append_assoc]
  · rw [sumValid_append, hsv]
    ring
  · exact chainOk_append_full _ _ hA hchainres

/-- Success specification of `write_data` with an all-success allocation
oracle on a well-shaped, well-formed chain: exactly `len` bytes are
appended after the existing unread bytes, the by-page byte count rises
by `len`, and the chain stays well shaped. -/
theorem write_data_ok (len : Nat) (buf : List Nat) (pages : List Page)
    (n : Nat) (ps' : List Page) (o' : List Bool)
    (hco : chainOk pages) (hwf : pagesWF pages) (hb : len ≤ buf.length)
    (h : write_data len buf pages [] = ⟨.ok n, ps', o'⟩) :
    n = len ∧
    unreadBytes ps' = unreadBytes pages ++ buf.take len ∧
    sumValid ps' = sumValid pages + (len : Int) ∧
    chainOk ps' := by
  have hC : OBJECT_MAX_SIZE = 4096 := rfl
  have hcore : ∀ (p0 : Page) (ps0 : List Page),
      chainOk (p0 :: ps0) → pagesWF (p0 :: ps0) →
      write_dataCore len buf p0 ps0 [] = ⟨.ok n, ps', o'⟩ →
      n = len ∧
      unreadBytes ps' = unreadBytes (p0 :: ps0) ++ buf.take len ∧
      sumValid ps' = sumValid (p0 :: ps0) + (len : Int) ∧
      chainOk ps' := by
    intro p0 ps0 hco0 hwf0 h0
    have hsuf : (walk1 p0 ps0).2.2 = [] := walk1_chainOk p0 ps0 hco0
    obtain ⟨hdec, hfullA⟩ := walk1_eq p0 ps0
    rw [hsuf] at hdec
    have htmem : (walk1 p0 ps0).2.1 ∈ p0 :: ps0 := by
      rw [hdec]; exact List.mem_append.mpr (Or.inr (by simp))
    obtain ⟨hofs, htfill⟩ := hwf0 _ htmem
    rw [write_dataCore] at h0
    by_cases hsp : OBJECT_MAX_SIZE -
        (walk1 p0 ps0).2.1.stream_content.length < len
    · rw [if_pos hsp] at h0
      simp only [allocLoop_empty] at h0
      obtain ⟨K, hK⟩ : ∃ K : Nat, ((len : Int) -
          ((OBJECT_MAX_SIZE -
            (walk1 p0 ps0).2.1.stream_content.length : Nat) : Int) +
          ((OBJECT_MAX_SIZE : Int) - 1)).toNat / OBJECT_MAX_SIZE = K :=
        ⟨_, rfl⟩
      rw [hK] at h0
      have hkfacts := allocCount_facts len
        ((walk1 p0 ps0).2.1.stream_content.length) K (by rw [← hK]) hsp
        htfill
      rw [if_neg hkfacts.2.2] at h0
      rw [if_pos trivial] at h0
      by_cases hfull : (walk1 p0 ps0).2.1.stream_content.length =
          OBJECT_MAX_SIZE
      · -- the walk-1 target is itself full: the copy starts on the first
        -- fresh page
        obtain ⟨k', hk'⟩ : ∃ k', K = k' + 1 :=
          ⟨K - 1, by have h2 := hkfacts.2.2; omega⟩
        rw [hk', List.replicate_succ, List.append_cons] at h0
        have hA' : ∀ q ∈ (walk1 p0 ps0).1 ++ [(walk1 p0 ps0).2.1],
            q.stream_content.length = OBJECT_MAX_SIZE := by
          intro q hq
          rcases List.mem_append.mp hq with hq | hq
          · exact hfullA q hq
          · simp at hq
            rw [hq]
            exact hfull
        obtain ⟨e1, e2, e3, e4, e5⟩ :=
          copyPhase_shape_ok _ emptyPage k' len n buf ps' [] o'
            hA' (by simp [emptyPage, hC]) (by simp [emptyPage])
            (by simp [emptyPage]) hb
            (by
              have h1 := hkfacts.1
              rw [hfull] at h1
              simp only [emptyPage, List.length_nil, Nat.sub_zero]
              simp only [hC] at h1 ⊢
              omega)
            (by
              rcases Nat.eq_zero_or_pos k' with rfl | hk0
              · exact Or.inl rfl
              · refine Or.inr ?_
                have h1 := hkfacts.2.1
                rw [hfull] at h1
                simp only [emptyPage, List.length_nil, Nat.sub_zero]
                simp only [hC] at h1 ⊢
                omega)
            h0
        refine ⟨e1, ?_, ?_, e4⟩
        · rw [e2, hdec]
          simp [unreadBytes_append, unreadBytes, Page.unread, emptyPage,
            List.append_assoc]
        · rw [e3, hdec]
          simp [sumValid_append, sumValid, emptyPage]
      · -- the walk-1 target is not full: the copy starts on it
        obtain ⟨e1, e2, e3, e4, e5⟩ :=
          copyPhase_shape_ok _ _ K len n buf ps' [] o'
            hfullA hfull hofs htfill hb hkfacts.1
            (Or.inr hkfacts.2.1) h0
        refine ⟨e1, ?_, ?_, e4⟩
        · rw [e2, hdec]
          simp [unreadBytes_append, unreadBytes, Page.unread,
            List.append_assoc]
        · rw [e3, hdec]
          simp [sumValid_append, sumValid]
    · rw [if_neg hsp] at h0
      by_cases hfull : (walk1 p0 ps0).2.1.stream_content.length =
          OBJECT_MAX_SIZE
      · -- every page full and no page allocated: the second walk
        -- dereferences a null pointer, contradicting the ok result
        have hnone : walk2 ((walk1 p0 ps0).1 ++
            (walk1 p0 ps0).2.1 :: (walk1 p0 ps0).2.2) = none := by
          apply (walk2_none_iff _).mpr
          intro q hq
          rcases List.mem_append.mp hq with hq | hq
          · exact hfullA q hq
          · rw [hsuf] at hq
            simp at hq
            rw [hq]
            exact hfull
        rw [copyPhase, hnone] at h0
        cases h0
      · rw [hsuf] at h0
        have h0' : copyPhase len buf
            ((walk1 p0 ps0).1 ++ (walk1 p0 ps0).2.1 ::
              List.replicate 0 emptyPage) [] = ⟨.ok n, ps', o'⟩ := h0
        obtain ⟨e1, e2, e3, e4, e5⟩ :=
          copyPhase_shape_ok _ _ 0 len n buf ps' [] o'
            hfullA hfull hofs htfill hb (by simp; omega) (Or.inl rfl) h0'
        refine ⟨e1, ?_, ?_, e4⟩
        · rw [e2, hdec]
          simp [unreadBytes_append, unreadBytes, Page.unread,
            List.append_assoc]
        · rw [e3, hdec]
          simp [sumValid_append, sumValid]
  cases pages with
  | nil =>
    rw [write_data] at h
    rw [if_pos (show allocNext [] = true from rfl)] at h
    have hres := hcore emptyPage []
      (chainOk_single _) (by
        intro q hq
        rcases List.mem_cons.mp hq with rfl | hq
        · constructor <;> simp [emptyPage]
        · simp at hq) h
    refine ⟨hres.1, ?_, ?_, hres.2.2.2⟩
    · rw [hres.2.1]
      simp [unreadBytes, emptyPage, Page.unread]
    · rw [hres.2.2.1]
      simp [sumValid, emptyPage]
  | cons p ps =>
    rw [write_data] at h
    exact hcore p ps hco hwf h

/-- `pendingBytes` of an enqueued job. -/
theorem pendingBytes_append (l : List Job) (j : Job) :
    pendingBytes (l ++ [j]) = pendingBytes l + (j.len : Int) := by
  simp [pendingBytes]

/-- `pendingBytes` of a dequeued job. -/
theorem pendingBytes_cons (j : Job) (l : List Job) :
    pendingBytes (j :: l) = (j.len : Int) + pendingBytes l := by
  simp [pendingBytes]

/-- Selecting the flow at priority 0. -/
theorem flow_low (st : SysState) {p : Fin 2} (hp : p.val = 0) :
    st.flow p = st.low := if_pos hp

/-- Selecting the flow at priority 1. -/
theorem flow_high (st : SysState) {p : Fin 2} (hp : p.val = 1) :
    st.flow p = st.high := if_neg (by omega)

/-- Writing the flow at priority 0. -/
theorem setFlow_low (st : SysState) {p : Fin 2} (hp : p.val = 0)
    (f : Flow) : st.setFlow p f = { st with low := f } := if_pos hp

/-- Writing the flow at priority 1. -/
theorem setFlow_high (st : SysState) {p : Fin 2} (hp : p.val = 1)
    (f : Flow) : st.setFlow p f = { st with high := f } := if_neg (by omega)

/-- Counting at priority 0. -/
theorem addCount_low (st : SysState) {p : Fin 2} (hp : p.val = 0)
    (d : Int) : st.addCount p d =
      { st with low_data_count := st.low_data_count + d } := if_pos hp

/-- Counting at priority 1. -/
theorem addCount_high (st : SysState) {p : Fin 2} (hp : p.val = 1)
    (d : Int) : st.addCount p d =
      { st with high_data_count := st.high_data_count + d } :=
  if_neg (by omega)

/-- The locked portion of `dev_write` preserves the counter balance on
every non-crashing path. -/
theorem dev_writeLocked_balance (st : SysState) (p : Fin 2)
    (temp : List Nat) (len0 : Nat) (e : WriteEnv) (b : Nat)
    (hb : Balance st) :
    (dev_writeLocked st p temp len0 e b).ret = none ∨
    Balance (dev_writeLocked st p temp len0 e b).st := by
  obtain ⟨hbh, hbl⟩ := hb
  have hp : p.val = 0 ∨ p.val = 1 := by omega
  unfold dev_writeLocked
  dsimp only
  rcases hp with hp | hp
  · rw [flow_low _ hp, if_pos hp]
    split_ifs <;>
      first
        | exact Or.inr ⟨hbh, hbl⟩
        | (refine Or.inr ⟨?_, ?_⟩ <;> dsimp only <;>
            (try simp only [pendingBytes_append, pendingBytes_cons]) <;>
            omega)
  · rw [flow_high _ hp, if_neg (by omega : ¬ p.val = 0)]
    split_ifs <;>
      first
        | exact Or.inr ⟨hbh, hbl⟩
        | (split <;>
            first
              | exact Or.inl rfl
              | (rw [setFlow_high _ hp, addCount_high _ hp];
                 exact Or.inr ⟨by dsimp only; omega, by dsimp only; omega⟩))

/-- `dev_write` preserves the counter balance on every non-crashing
path. -/
theorem dev_write_balance (st : SysState) (p : Fin 2) (t : Int)
    (data : List Nat) (e : WriteEnv) (hb : Balance st) :
    (dev_write st p t data e).ret = none ∨
    Balance (dev_write st p t data e).st := by
  unfold dev_write
  dsimp only
  split_ifs <;>
    first
      | exact Or.inr hb
      | exact dev_writeLocked_balance _ _ _ _ _ _ hb

/-- The locked portion of `dev_read` preserves the counter balance: it
moves the bytes consumed from `valid_bytes` back to
`total_free_bytes`. -/
theorem dev_readLocked_balance (st : SysState) (p : Fin 2) (ulen : Nat)
    (zeroBuf : List Nat) (e : ReadEnv) (b : Nat) (hb : Balance st) :
    (dev_readLocked st p ulen zeroBuf e b).ret = none ∨
    Balance (dev_readLocked st p ulen zeroBuf e b).st := by
  obtain ⟨hbh, hbl⟩ := hb
  have hp : p.val = 0 ∨ p.val = 1 := by omega
  unfold dev_readLocked
  dsimp only
  rcases hp with hp | hp
  · rw [flow_low _ hp]
    split_ifs <;>
      first
        | exact Or.inr ⟨hbh, hbl⟩
        | (split <;>
            first
              | exact Or.inl rfl
              | (rw [setFlow_low _ hp, addCount_low _ hp];
                 exact Or.inr ⟨by dsimp only; omega,
                   by dsimp only; omega⟩))
  · rw [flow_high _ hp]
    split_ifs <;>
      first
        | exact Or.inr ⟨hbh, hbl⟩
        | (split <;>
            first
              | exact Or.inl rfl
              | (rw [setFlow_high _ hp, addCount_high _ hp];
                 exact Or.inr ⟨by dsimp only; omega,
                   by dsimp only; omega⟩))

/-- `dev_read` preserves the counter balance on every non-crashing
path. -/
theorem dev_read_balance (st : SysState) (p : Fin 2) (t : Int)
    (ulen : Nat) (e : ReadEnv) (hb : Balance st) :
    (dev_read st p t ulen e).ret = none ∨
    Balance (dev_read st p t ulen e).st := by
  unfold dev_read
  dsimp only
  split_ifs <;>
    first
      | exact Or.inr hb
      | exact dev_readLocked_balance _ _ _ _ _ _ hb

/-- `dev_ioctl` preserves the counter balance (it only touches session
attributes and the enable flag). -/
theorem dev_ioctl_balance (st : SysState) (sess : IoSessInfo)
    (command param : Nat) (lockOk : Bool) (hb : Balance st) :
    Balance (dev_ioctl st sess command param lockOk).st := by
  obtain ⟨hbh, hbl⟩ := hb
  unfold dev_ioctl
  split_ifs <;> exact ⟨hbh, hbl⟩

/-- The deferred-write worker preserves the counter balance: the job's
reservation leaves the pending queue and is credited to `valid_bytes`
in full (independently of how many bytes `write_data` appended). -/
theorem do_wq_write_balance (st : SysState) (pageAlloc : List Bool)
    (st' : SysState) (h : do_wq_write st pageAlloc = some st')
    (hb : Balance st) : Balance st' := by
  obtain ⟨hbh, hbl⟩ := hb
  rw [do_wq_write] at h
  cases hpend : st.pending with
  | nil =>
    rw [hpend] at h
    obtain rfl : st = st' := by simpa using h
    exact ⟨hbh, by rw [hpend] at hbl ⊢; exact hbl⟩
  | cons j rest =>
    rw [hpend] at h
    dsimp only at h
    split_ifs at h
    obtain rfl : _ = st' := by simpa using h
    rw [hpend, pendingBytes_cons] at hbl
    refine ⟨hbh, ?_⟩
    dsimp only
    omega

/-- Every operation step preserves the counter balance. -/
theorem step_balance (st : SysState) (op : Op) (st' : SysState)
    (h : step st op = some st') (hb : Balance st) : Balance st' := by
  cases op with
  | write p t d e =>
    rw [step] at h
    rcases dev_write_balance st p t d e hb with hc | hbal
    · rw [hc] at h; cases h
    · cases hr : (dev_write st p t d e).ret with
      | none => rw [hr] at h; cases h
      | some v =>
        rw [hr] at h
        obtain rfl : (dev_write st p t d e).st = st' := by simpa using h
        exact hbal
  | read p t n e =>
    rw [step] at h
    rcases dev_read_balance st p t n e hb with hc | hbal
    · rw [hc] at h; cases h
    · cases hr : (dev_read st p t n e).ret with
      | none => rw [hr] at h; cases h
      | some v =>
        rw [hr] at h
        obtain rfl : (dev_read st p t n e).st = st' := by simpa using h
        exact hbal
  | ioctlOp s c a l =>
    rw [step] at h
    obtain rfl : (dev_ioctl st s c a l).st = st' := by simpa using h
    exact dev_ioctl_balance st s c a l hb
  | runJob a =>
    rw [step] at h
    exact do_wq_write_balance st a st' h hb
  | openOp =>
    rw [step] at h
    obtain rfl : st = st' := by simpa using h
    exact hb
  | closeOp =>
    rw [step] at h
    obtain rfl : st = st' := by simpa using h
    exact hb

/-- The counter balance holds in every state reachable from the initial
state. -/
theorem run_balance (ops : List Op) (st st' : SysState)
    (h : run st ops = some st') (hb : Balance st) : Balance st' := by
  induction ops generalizing st with
  | nil =>
    rw [run] at h
    obtain rfl : st = st' := by simpa using h
    exact hb
  | cons op ops ih =>
    rw [run] at h
    cases hs : step st op with
    | none => rw [hs] at h; cases h
    | some st1 =>
      rw [hs] at h
      exact ih st1 h (step_balance st op st1 hs hb)

/-- The initial state is balanced. -/
theorem initState_balance : Balance initState := by
  constructor <;> rfl

/-- C1: for every endpoint and every flow, after every operation (open,
close, read, write, control, and a deferred-write job execution) the
equation `valid_bytes + free_bytes == C × MAX_PAGES` holds (`C = 4096`,
`MAX_PAGES = 5`), where for the low-priority flow `free_bytes` is
already debited at enqueue time for the bytes reserved by deferred
writes not yet copied — so those reserved bytes complete the low-flow
equation. -/
theorem C1_counter_balance (ops : List Op) (st : SysState)
    (h : run initState ops = some st) :
    OBJECT_MAX_SIZE = 4096 ∧ MAX_PAGES = 5 ∧
    st.high.valid_bytes + st.high.total_free_bytes =
      ((OBJECT_MAX_SIZE * MAX_PAGES : Nat) : Int) ∧
    st.low.valid_bytes + st.low.total_free_bytes +
      pendingBytes st.pending =
      ((OBJECT_MAX_SIZE * MAX_PAGES : Nat) : Int) := by
  have hb := run_balance ops initState st h initState_balance
  exact ⟨rfl, rfl, hb.1, hb.2⟩

/-- Witness for C1 on a concrete trace. -/
theorem C1_counter_balance_witness :
    run initState C1ops = some C1st ∧
    (OBJECT_MAX_SIZE = 4096 ∧ MAX_PAGES = 5 ∧
     C1st.high.valid_bytes + C1st.high.total_free_bytes =
       ((OBJECT_MAX_SIZE * MAX_PAGES : Nat) : Int) ∧
     C1st.low.valid_bytes + C1st.low.total_free_bytes +
       pendingBytes C1st.pending =
       ((OBJECT_MAX_SIZE * MAX_PAGES : Nat) : Int)) :=
  ⟨by decide, C1_counter_balance C1ops C1st (by decide)⟩

/-- The locked portion of `dev_write` preserves the cursor discipline on
every path (including `-ENOMEM` paths, which may leave fresh empty pages
linked). -/
theorem dev_writeLocked_cursor (st : SysState) (p : Fin 2)
    (temp : List Nat) (len0 : Nat) (e : WriteEnv) (b : Nat)
    (hc : CursorInv st) :
    CursorInv (dev_writeLocked st p temp len0 e b).st := by
  obtain ⟨hlo, hhi⟩ := hc
  have hp : p.val = 0 ∨ p.val = 1 := by omega
  unfold dev_writeLocked
  dsimp only
  rcases hp with hp | hp
  · rw [flow_low _ hp, if_pos hp]
    split_ifs <;> exact ⟨hlo, hhi⟩
  · rw [flow_high _ hp, if_neg (by omega : ¬ p.val = 0)]
    split_ifs <;>
      first
        | exact ⟨hlo, hhi⟩
        | (split <;>
            [(rw [setFlow_high _ hp];
              exact ⟨hlo, write_data_pagesInv _ _ _ _ hhi⟩);
             (rw [setFlow_high _ hp, addCount_high _ hp];
              exact ⟨hlo, write_data_pagesInv _ _ _ _ hhi⟩);
             (rw [setFlow_high _ hp, addCount_high _ hp];
              exact ⟨hlo, write_data_pagesInv _ _ _ _ hhi⟩)])

/-- `dev_write` preserves the cursor discipline on every path. -/
theorem dev_write_cursor (st : SysState) (p : Fin 2) (t : Int)
    (data : List Nat) (e : WriteEnv) (hc : CursorInv st) :
    CursorInv (dev_write st p t data e).st := by
  unfold dev_write
  dsimp only
  split_ifs <;>
    first
      | exact hc
      | exact dev_writeLocked_cursor _ _ _ _ _ _ hc

/-- The locked portion of `dev_read` preserves the cursor discipline on
every path. -/
theorem dev_readLocked_cursor (st : SysState) (p : Fin 2) (ulen : Nat)
    (zeroBuf : List Nat) (e : ReadEnv) (b : Nat) (hc : CursorInv st) :
    (dev_readLocked st p ulen zeroBuf e b).ret = none ∨
    CursorInv (dev_readLocked st p ulen zeroBuf e b).st := by
  obtain ⟨hlo, hhi⟩ := hc
  have hp : p.val = 0 ∨ p.val = 1 := by omega
  unfold dev_readLocked
  dsimp only
  rcases hp with hp | hp
  · rw [flow_low _ hp]
    split_ifs <;>
      first
        | exact Or.inr ⟨hlo, hhi⟩
        | (split <;>
            first
              | exact Or.inl rfl
              | (rename_i r hcl;
                 obtain ⟨bs, ps2⟩ := r;
                 rw [setFlow_low _ hp, addCount_low _ hp];
                 obtain ⟨_, _, _, w1, w2, w3, _⟩ :=
                   consumeLoop_sound _ _ bs ps2 hcl hlo.wf hlo.tz hlo.nfc;
                 exact Or.inr ⟨⟨w1, w2, w3⟩, hhi⟩))
  · rw [flow_high _ hp]
    split_ifs <;>
      first
        | exact Or.inr ⟨hlo, hhi⟩
        | (split <;>
            first
              | exact Or.inl rfl
              | (rename_i r hcl;
                 obtain ⟨bs, ps2⟩ := r;
                 rw [setFlow_high _ hp, addCount_high _ hp];
                 obtain ⟨_, _, _, w1, w2, w3, _⟩ :=
                   consumeLoop_sound _ _ bs ps2 hcl hhi.wf hhi.tz hhi.nfc;
                 exact Or.inr ⟨hlo, ⟨w1, w2, w3⟩⟩))

/-- `dev_read` preserves the cursor discipline on every non-crashing
path. -/
theorem dev_read_cursor (st : SysState) (p : Fin 2) (t : Int)
    (ulen : Nat) (e : ReadEnv) (hc : CursorInv st) :
    (dev_read st p t ulen e).ret = none ∨
    CursorInv (dev_read st p t ulen e).st := by
  unfold dev_read
  dsimp only
  split_ifs <;>
    first
      | exact Or.inr hc
      | exact dev_readLocked_cursor _ _ _ _ _ _ hc

/-- The deferred-write worker preserves the cursor discipline. -/
theorem do_wq_write_cursor (st : SysState) (pageAlloc : List Bool)
    (st' : SysState) (h : do_wq_write st pageAlloc = some st')
    (hc : CursorInv st) : CursorInv st' := by
  obtain ⟨hlo, hhi⟩ := hc
  rw [do_wq_write] at h
  cases hpend : st.pending with
  | nil =>
    rw [hpend] at h
    obtain rfl : st = st' := by simpa using h
    exact ⟨hlo, hhi⟩
  | cons j rest =>
    rw [hpend] at h
    dsimp only at h
    split_ifs at h
    obtain rfl : _ = st' := by simpa using h
    exact ⟨write_data_pagesInv _ _ _ _ hlo, hhi⟩

/-- Every operation step preserves the cursor discipline. -/
theorem step_cursor (st : SysState) (op : Op) (st' : SysState)
    (h : step st op = some st') (hc : CursorInv st) : CursorInv st' := by
  cases op with
  | write p t d e =>
    rw [step] at h
    cases hr : (dev_write st p t d e).ret with
    | none => rw [hr] at h; cases h
    | some v =>
      rw [hr] at h
      obtain rfl : (dev_write st p t d e).st = st' := by simpa using h
      exact dev_write_cursor st p t d e hc
  | read p t n e =>
    rw [step] at h
    rcases dev_read_cursor st p t n e hc with hcr | hcr
    · rw [hcr] at h; cases h
    · cases hr : (dev_read st p t n e).ret with
      | none => rw [hr] at h; cases h
      | some v =>
        rw [hr] at h
        obtain rfl : (dev_read st p t n e).st = st' := by simpa using h
        exact hcr
  | ioctlOp s c a l =>
    rw [step] at h
    obtain rfl : (dev_ioctl st s c a l).st = st' := by simpa using h
    obtain ⟨hlo, hhi⟩ := hc
    unfold dev_ioctl
    split_ifs <;> exact ⟨hlo, hhi⟩
  | runJob a =>
    rw [step] at h
    exact do_wq_write_cursor st a st' h hc
  | openOp =>
    rw [step] at h
    obtain rfl : st = st' := by simpa using h
    exact hc
  | closeOp =>
    rw [step] at h
    obtain rfl : st = st' := by simpa using h
    exact hc

/-- The cursor discipline holds in every reachable state. -/
theorem run_cursor (ops : List Op) (st st' : SysState)
    (h : run st ops = some st') (hc : CursorInv st) : CursorInv st' := by
  induction ops generalizing st with
  | nil =>
    rw [run] at h
    obtain rfl : st = st' := by simpa using h
    exact hc
  | cons op ops ih =>
    rw [run] at h
    cases hs : step st op with
    | none => rw [hs] at h; cases h
    | some st1 =>
      rw [hs] at h
      exact ih st1 h (step_cursor st op st1 hs hc)

/-- The initial state satisfies the cursor discipline. -/
theorem initState_cursor : CursorInv initState := by
  have hone : PagesInv [emptyPage] := by
    refine ⟨?_, ?_, ?_⟩
    · intro q hq
      simp only [List.mem_singleton] at hq
      subst hq
      exact ⟨Nat.le_refl 0, by simp [emptyPage, OBJECT_MAX_SIZE]⟩
    · intro q hq
      simp at hq
    · intro q hq
      simp only [List.mem_singleton] at hq
      subst hq
      simp [emptyPage, OBJECT_MAX_SIZE]
  exact ⟨hone, hone⟩

/-- C9: for every endpoint and flow, after every operation no page other
than the head of the page chain has `read_offset > 0`, and no page
survives with its cursor at the page size: a head whose `read_offset`
reaches `OBJECT_MAX_SIZE` is unlinked and freed before the operation
returns. -/
theorem C9_cursor_discipline (ops : List Op) (st : SysState)
    (h : run initState ops = some st) :
    (∀ q ∈ st.low.pages.tail, q.read_offset = 0) ∧
    (∀ q ∈ st.high.pages.tail, q.read_offset = 0) ∧
    (∀ q ∈ st.low.pages, q.read_offset < OBJECT_MAX_SIZE) ∧
    (∀ q ∈ st.high.pages, q.read_offset < OBJECT_MAX_SIZE) := by
  have hc := run_cursor ops initState st h initState_cursor
  exact ⟨hc.lowI.tz, hc.highI.tz, hc.lowI.nfc, hc.highI.nfc⟩

/-- Witness for C9 on a concrete trace. -/
theorem C9_cursor_discipline_witness :
    run initState C9ops = some C9st ∧
    ((∀ q ∈ C9st.low.pages.tail, q.read_offset = 0) ∧
     (∀ q ∈ C9st.high.pages.tail, q.read_offset = 0) ∧
     (∀ q ∈ C9st.low.pages, q.read_offset < OBJECT_MAX_SIZE) ∧
     (∀ q ∈ C9st.high.pages, q.read_offset < OBJECT_MAX_SIZE)) :=
  ⟨by decide, C9_cursor_discipline C9ops C9st (by decide)⟩

/-- The copy phase never reports `-ENOMEM`: its failure modes are a crash
or success. -/
theorem copyPhase_not_nomem (len : Nat) (buf : List Nat)
    (chain : List Page) (o : List Bool) :
    (copyPhase len buf chain o).res ≠ WDRes.nomem := by
  rw [copyPhase]
  split
  · simp
  · split
    · simp
    · simp

/-- With an all-success allocation oracle `write_data` never returns
`-ENOMEM`. -/
theorem write_data_empty_oracle_res (len : Nat) (buf : List Nat)
    (pages : List Page) :
    (write_data len buf pages []).res ≠ WDRes.nomem := by
  have hcore : ∀ (p0 : Page) (ps0 : List Page),
      (write_dataCore len buf p0 ps0 []).res ≠ WDRes.nomem := by
    intro p0 ps0
    rw [write_dataCore]
    dsimp only
    rw [allocLoop_empty]
    split_ifs <;>
      first
        | exact copyPhase_not_nomem _ _ _ _
        | simp_all
  cases pages with
  | nil =>
    rw [write_data]
    rw [if_pos (show allocNext [] = true from rfl)]
    exact hcore emptyPage []
  | cons p ps =>
    rw [write_data]
    exact hcore p ps

/-- The locked portion of `dev_write`, under an all-success allocation
oracle and a staged buffer covering the byte count, preserves the
accounting invariant on every non-crashing path. -/
theorem dev_writeLocked_sysInv (st : SysState) (p : Fin 2)
    (temp : List Nat) (len0 : Nat) (e : WriteEnv) (b : Nat)
    (hpa : e.pageAlloc = []) (htl : len0 ≤ temp.length) (hs : SysInv st) :
    (dev_writeLocked st p temp len0 e b).ret = none ∨
    SysInv (dev_writeLocked st p temp len0 e b).st := by
  obtain ⟨hlo, hhi, hjobs⟩ := hs
  have hp : p.val = 0 ∨ p.val = 1 := by omega
  unfold dev_writeLocked
  dsimp only
  rw [hpa]
  rcases hp with hp | hp
  · rw [flow_low _ hp, if_pos hp]
    by_cases h0 : st.low.total_free_bytes = 0
    · rw [if_pos h0]
      exact Or.inr ⟨hlo, hhi, hjobs⟩
    · rw [if_neg h0]
      obtain ⟨L, hL, hLle⟩ : ∃ L,
          (if len0 > toUnsigned st.low.total_free_bytes
           then toUnsigned st.low.total_free_bytes else len0) = L ∧
          L ≤ temp.length := by
        split_ifs with hc
        · exact ⟨_, rfl, by omega⟩
        · exact ⟨_, rfl, htl⟩
      rw [hL]
      split_ifs <;>
        first
          | exact Or.inr ⟨hlo, hhi, hjobs⟩
          | (refine Or.inr ⟨⟨hlo.pinv, hlo.cok, hlo.vs⟩, hhi,
               fun j hj => ?_⟩;
             rcases List.mem_append.mp hj with hj | hj;
             exacts [hjobs j hj,
               by obtain rfl := List.mem_singleton.mp hj; exact hLle])
  · rw [flow_high _ hp, if_neg (by omega : ¬ p.val = 0)]
    by_cases h0 : st.high.total_free_bytes = 0
    · rw [if_pos h0]
      exact Or.inr ⟨hlo, hhi, hjobs⟩
    · rw [if_neg h0]
      obtain ⟨L, hL, hLle⟩ : ∃ L,
          (if len0 > toUnsigned st.high.total_free_bytes
           then toUnsigned st.high.total_free_bytes else len0) = L ∧
          L ≤ temp.length := by
        split_ifs with hc
        · exact ⟨_, rfl, by omega⟩
        · exact ⟨_, rfl, htl⟩
      rw [hL]
      split
      · exact Or.inl rfl
      · rename_i n hres
        have heq : write_data L temp st.high.pages [] =
            ⟨WDRes.ok n, (write_data L temp st.high.pages []).pages,
             (write_data L temp st.high.pages []).oracle⟩ := by
          rw [← hres]
        obtain ⟨e1, e2, e3, e4⟩ := write_data_ok L temp st.high.pages n _ _
          hhi.cok hhi.pinv.wf hLle heq
        subst e1
        rw [setFlow_high _ hp, addCount_high _ hp]
        refine Or.inr ⟨hlo,
          ⟨write_data_pagesInv _ _ _ _ hhi.pinv, e4, ?_⟩, hjobs⟩
        dsimp only
        rw [hhi.vs, e3]
      · rename_i hres
        exact absurd hres (write_data_empty_oracle_res _ _ _)

/-- `dev_write` with an all-success allocation oracle preserves the
accounting invariant on every non-crashing path. -/
theorem dev_write_sysInv (st : SysState) (p : Fin 2) (t : Int)
    (data : List Nat) (e : WriteEnv) (hpa : e.pageAlloc = [])
    (hs : SysInv st) :
    (dev_write st p t data e).ret = none ∨
    SysInv (dev_write st p t data e).st := by
  unfold dev_write
  dsimp only
  split_ifs <;>
    first
      | exact Or.inr hs
      | exact dev_writeLocked_sysInv _ _ _ _ _ _ hpa
          (by simp only [List.length_take]; omega) hs

/-- The locked portion of `dev_read` preserves the accounting invariant
on every non-crashing path. -/
theorem dev_readLocked_sysInv (st : SysState) (p : Fin 2) (ulen : Nat)
    (zeroBuf : List Nat) (e : ReadEnv) (b : Nat) (hs : SysInv st) :
    (dev_readLocked st p ulen zeroBuf e b).ret = none ∨
    SysInv (dev_readLocked st p ulen zeroBuf e b).st := by
  obtain ⟨hlo, hhi, hjobs⟩ := hs
  have hp : p.val = 0 ∨ p.val = 1 := by omega
  unfold dev_readLocked
  dsimp only
  rcases hp with hp | hp
  · rw [flow_low _ hp]
    split_ifs <;>
      first
        | exact Or.inr ⟨hlo, hhi, hjobs⟩
        | (split <;>
            first
              | exact Or.inl rfl
              | (rename_i r hcl;
                 obtain ⟨bs, ps2⟩ := r;
                 rw [setFlow_low _ hp, addCount_low _ hp];
                 obtain ⟨_, _, c3, w1, w2, w3, c7⟩ :=
                   consumeLoop_sound _ _ bs ps2 hcl hlo.pinv.wf hlo.pinv.tz
                     hlo.pinv.nfc;
                 exact Or.inr ⟨⟨⟨w1, w2, w3⟩, c7 hlo.cok,
                   by dsimp only; rw [c3, hlo.vs]⟩, hhi, hjobs⟩))
  · rw [flow_high _ hp]
    split_ifs <;>
      first
        | exact Or.inr ⟨hlo, hhi, hjobs⟩
        | (split <;>
            first
              | exact Or.inl rfl
              | (rename_i r hcl;
                 obtain ⟨bs, ps2⟩ := r;
                 rw [setFlow_high _ hp, addCount_high _ hp];
                 obtain ⟨_, _, c3, w1, w2, w3, c7⟩ :=
                   consumeLoop_sound _ _ bs ps2 hcl hhi.pinv.wf hhi.pinv.tz
                     hhi.pinv.nfc;
                 exact Or.inr ⟨hlo, ⟨⟨w1, w2, w3⟩, c7 hhi.cok,
                   by dsimp only; rw [c3, hhi.vs]⟩, hjobs⟩))

/-- `dev_read` preserves the accounting invariant on every non-crashing
path. -/
theorem dev_read_sysInv (st : SysState) (p : Fin 2) (t : Int)
    (ulen : Nat) (e : ReadEnv) (hs : SysInv st) :
    (dev_read st p t ulen e).ret = none ∨
    SysInv (dev_read st p t ulen e).st := by
  unfold dev_read
  dsimp only
  split_ifs <;>
    first
      | exact Or.inr hs
      | exact dev_readLocked_sysInv _ _ _ _ _ _ hs

/-- The deferred-write worker with an all-success allocation oracle
preserves the accounting invariant: the job's full length is credited and
exactly that many bytes are appended. -/
theorem do_wq_write_sysInv (st st' : SysState)
    (h : do_wq_write st [] = some st') (hs : SysInv st) : SysInv st' := by
  obtain ⟨hlo, hhi, hjobs⟩ := hs
  rw [do_wq_write] at h
  cases hpend : st.pending with
  | nil =>
    rw [hpend] at h
    obtain rfl : st = st' := by simpa using h
    exact ⟨hlo, hhi, hjobs⟩
  | cons j rest =>
    rw [hpend] at h
    dsimp only at h
    by_cases hcr : (write_data j.len j.data st.low.pages []).res =
        WDRes.crash
    · rw [if_pos hcr] at h
      cases h
    · rw [if_neg hcr] at h
      obtain rfl : _ = st' := by simpa using h
      have hjlen : j.len ≤ j.data.length := hjobs j (by rw [hpend]; simp)
      cases hres : (write_data j.len j.data st.low.pages []).res with
      | crash => exact absurd hres hcr
      | nomem => exact absurd hres (write_data_empty_oracle_res _ _ _)
      | ok n =>
        have heq : write_data j.len j.data st.low.pages [] =
            ⟨WDRes.ok n, (write_data j.len j.data st.low.pages []).pages,
             (write_data j.len j.data st.low.pages []).oracle⟩ := by
          rw [← hres]
        obtain ⟨e1, e2, e3, e4⟩ := write_data_ok j.len j.data st.low.pages
          n _ _ hlo.cok hlo.pinv.wf hjlen heq
        refine ⟨⟨write_data_pagesInv _ _ _ _ hlo.pinv, e4, ?_⟩, hhi, ?_⟩
        · dsimp only
          rw [hlo.vs, e3]
        · intro q hq
          exact hjobs q (by rw [hpend]; exact List.mem_cons_of_mem _ hq)

/-- Every clean operation step (all internal page allocations succeed)
preserves the accounting invariant. -/
theorem step_sysInv (st : SysState) (op : Op) (st' : SysState)
    (h : step st op = some st') (hclean : cleanOp op = true)
    (hs : SysInv st) : SysInv st' := by
  cases op with
  | write p t d e =>
    have hpa : e.pageAlloc = [] := by
      simpa [cleanOp, List.isEmpty_iff] using hclean
    rw [step] at h
    rcases dev_write_sysInv st p t d e hpa hs with hr | hr
    · rw [hr] at h; cases h
    · cases hret : (dev_write st p t d e).ret with
      | none => rw [hret] at h; cases h
      | some v =>
        rw [hret] at h
        obtain rfl : (dev_write st p t d e).st = st' := by simpa using h
        exact hr
  | read p t n e =>
    rw [step] at h
    rcases dev_read_sysInv st p t n e hs with hr | hr
    · rw [hr] at h; cases h
    · cases hret : (dev_read st p t n e).ret with
      | none => rw [hret] at h; cases h
      | some v =>
        rw [hret] at h
        obtain rfl : (dev_read st p t n e).st = st' := by simpa using h
        exact hr
  | ioctlOp s c a l =>
    rw [step] at h
    obtain rfl : (dev_ioctl st s c a l).st = st' := by simpa using h
    obtain ⟨hlo, hhi, hjobs⟩ := hs
    unfold dev_ioctl
    split_ifs <;> exact ⟨hlo, hhi, hjobs⟩
  | runJob a =>
    have hpa : a = [] := by simpa [cleanOp, List.isEmpty_iff] using hclean
    subst hpa
    rw [step] at h
    exact do_wq_write_sysInv st st' h hs
  | openOp =>
    rw [step] at h
    obtain rfl : st = st' := by simpa using h
    exact hs
  | closeOp =>
    rw [step] at h
    obtain rfl : st = st' := by simpa using h
    exact hs

/-- The accounting invariant holds in every state reachable by clean
operations. -/
theorem run_sysInv (ops : List Op) (st st' : SysState)
    (h : run st ops = some st') (hclean : ∀ op ∈ ops, cleanOp op = true)
    (hs : SysInv st) : SysInv st' := by
  induction ops generalizing st with
  | nil =>
    rw [run] at h
    obtain rfl : st = st' := by simpa using h
    exact hs
  | cons op ops ih =>
    rw [run] at h
    cases hstp : step st op with
    | none => rw [hstp] at h; cases h
    | some st1 =>
      rw [hstp] at h
      exact ih st1 h (fun q hq => hclean q (List.mem_cons_of_mem _ hq))
        (step_sysInv st op st1 hstp (hclean op (by simp)) hs)

/-- The initial state satisfies the accounting invariant. -/
theorem initState_sysInv : SysInv initState := by
  have hone : PagesInv [emptyPage] := by
    refine ⟨?_, ?_, ?_⟩
    · intro q hq
      simp only [List.mem_singleton] at hq
      subst hq
      exact ⟨Nat.le_refl 0, by simp [emptyPage, OBJECT_MAX_SIZE]⟩
    · intro q hq
      simp at hq
    · intro q hq
      simp only [List.mem_singleton] at hq
      subst hq
      simp [emptyPage, OBJECT_MAX_SIZE]
  have hfl : FlowInv ⟨0, (CAPACITY : Int), [emptyPage]⟩ :=
    ⟨hone, chainOk_single _, by decide⟩
  exact ⟨hfl, hfl, fun j hj => by simp [initState] at hj⟩

/-- C2 (amended): for every endpoint and flow, after every operation of a
trace whose internal page allocations all succeed, `valid_bytes` equals
the sum over the pages of the flow's log of (fill − read_cursor).  (The
original claim fails for allocation-failure runs: the deferred-write
worker ignores `write_data`'s `-ENOMEM` return and still credits
`valid_bytes` with the job's full length.) -/
theorem C2_valid_matches_log (ops : List Op) (st : SysState)
    (hclean : ∀ op ∈ ops, cleanOp op = true)
    (h : run initState ops = some st) :
    st.low.valid_bytes = sumValid st.low.pages ∧
    st.high.valid_bytes = sumValid st.high.pages := by
  have hs := run_sysInv ops initState st h hclean initState_sysInv
  exact ⟨hs.lowI.vs, hs.highI.vs⟩

/-- Witness for the amended C2 on a concrete clean trace. -/
theorem C2_valid_matches_log_witness :
    (∀ op ∈ C2wops, cleanOp op = true) ∧
    run initState C2wops = some C2wst ∧
    (C2wst.low.valid_bytes = sumValid C2wst.low.pages ∧
     C2wst.high.valid_bytes = sumValid C2wst.high.pages) :=
  ⟨by decide, by decide,
   C2_valid_matches_log C2wops C2wst (by decide) (by decide)⟩

/-- A write larger than one page into a chain holding a single fresh page
fails its first page allocation and appends nothing. -/
theorem write_data_first_alloc_fails (len : Nat) (buf : List Nat)
    (h : OBJECT_MAX_SIZE < len) :
    write_data len buf [emptyPage] [false] =
      ⟨WDRes.nomem, [emptyPage], []⟩ := by
  have hC : OBJECT_MAX_SIZE = 4096 := rfl
  have h4 : 4096 < len := by simpa [hC] using h
  rw [write_data, write_dataCore]
  have hw1 : walk1 emptyPage [] = ([], emptyPage, []) := by
    rw [walk1]
    rw [if_neg (by simp [emptyPage, hC])]
  rw [hw1]
  dsimp only
  rw [if_pos (by simpa [emptyPage] using h)]
  have hal : allocLoop ((len : Int) -
      ((OBJECT_MAX_SIZE - emptyPage.stream_content.length : Nat) : Int))
      [false] = (false, 0, []) := by
    rw [allocLoop]
    rw [if_pos (by simp [emptyPage, hC]; omega)]
    rw [if_neg (by decide : ¬ allocNext [false] = true)]
    rfl
  rw [hal]
  rw [if_pos rfl]
  rw [if_neg (by decide : ¬ (false, 0, ([] : List Bool)).1 = true)]
  rfl

/-- The enqueue step of the C2 counterexample. -/
theorem dev_write_c2 (data : List Nat) (h : data.length = 4097) :
    dev_write initState 0 0 data cleanWEnv =
      ⟨some 4097,
       ⟨⟨0, 16383, [emptyPage]⟩, ⟨0, (CAPACITY : Int), [emptyPage]⟩,
        0, 0, 0, [⟨4097, data⟩]⟩, 1, 1, true⟩ := by
  have htake : data.take (data.length - 0) = data := by
    rw [Nat.sub_zero, List.take_length]
  unfold dev_write dev_writeLocked
  dsimp only [cleanWEnv]
  rw [htake, h, flow_low _ (rfl : ((0 : Fin 2) : Nat) = 0)]
  norm_num [initState, toUnsigned, CAPACITY, OBJECT_MAX_SIZE, MAX_PAGES]

/-- The worker step of the C2 counterexample. -/
theorem do_wq_write_c2 (data : List Nat) :
    do_wq_write
      ⟨⟨0, 16383, [emptyPage]⟩, ⟨0, (CAPACITY : Int), [emptyPage]⟩,
       0, 0, 0, [⟨4097, data⟩]⟩ [false] = some C2st := by
  rw [do_wq_write]
  dsimp only
  rw [write_data_first_alloc_fails 4097 data (by decide)]
  rw [if_neg (by decide :
    ¬ (⟨WDRes.nomem, [emptyPage], []⟩ : WDOut).res = WDRes.crash)]
  decide

/-- Counterexample to C2 as stated: after the trace `C2ops` (a deferred
4097-byte write whose worker-side page allocation fails) the low flow's
`valid_bytes` is 4097 while its log holds no unread bytes. -/
theorem C2_counterexample :
    run initState C2ops = some C2st ∧
    ¬ C2st.low.valid_bytes = sumValid C2st.low.pages := by
  refine ⟨?_, by decide⟩
  have h : C2data.length = 4097 := by
    rw [C2data, List.length_replicate]
  show run initState
    (Op.write 0 0 C2data cleanWEnv :: [Op.runJob [false]]) = some C2st
  rw [run, step, dev_write_c2 C2data h]
  dsimp only
  rw [run, step, do_wq_write_c2 C2data]
  rfl

/-- `toUnsigned` is the identity on small non-negative ints (the clamps
compare a `size_t` against a non-negative `int`). -/
theorem toUnsigned_toNat (i : Int) (h0 : 0 ≤ i) (h1 : i < 2 ^ 64) :
    toUnsigned i = i.toNat := by
  show (i.emod (2 ^ 64)).toNat = i.toNat
  have h2 : i.emod (2 ^ 64) = i := Int.emod_eq_of_lt h0 h1
  rw [h2]

/-- A clean high write with `copy_from_user` succeeding reaches the
locked portion with the full buffer. -/
theorem dev_write_high_clean_eq (st : SysState) (w : List Nat) :
    dev_write st 1 0 w cleanWEnv =
      dev_writeLocked st 1 w w.length cleanWEnv 0 := by
  unfold dev_write
  dsimp only [cleanWEnv]
  rw [if_neg (not_not_intro rfl), if_neg (not_not_intro rfl),
    if_neg (fun hc => absurd hc.2 (lt_irrefl 0)),
    Nat.sub_zero, List.take_length]

/-- A clean non-blocking read reaches the locked portion with the
zero-filled destination. -/
theorem dev_read_clean_eq (st : SysState) (r : Nat) :
    dev_read st 1 0 r cleanREnv =
      dev_readLocked st 1 r (List.replicate r 0) cleanREnv 0 := by
  unfold dev_read
  dsimp only [cleanREnv]
  rw [if_neg (not_not_intro rfl),
    if_neg (fun hc => absurd hc.2 (lt_irrefl 0))]

/-- A successful clean high write of `temp` extends the accumulated
byte list by exactly `temp`. -/
theorem dev_writeLocked_high_ok (st : SysState) (temp : List Nat)
    (acc : List Nat) (hA : HighAcc st acc)
    (hcap : acc.length + temp.length ≤ CAPACITY)
    (hret : (dev_writeLocked st 1 temp temp.length cleanWEnv 0).ret =
      some ((temp.length : Nat) : Int)) :
    HighAcc (dev_writeLocked st 1 temp temp.length cleanWEnv 0).st
      (acc ++ temp) := by
  have hCn : CAPACITY = 20480 := rfl
  have hC : (CAPACITY : Int) = 20480 := rfl
  unfold dev_writeLocked at hret ⊢
  dsimp only [cleanWEnv] at hret ⊢
  rw [flow_high _ rfl] at hret ⊢
  by_cases h0 : st.high.total_free_bytes = 0
  · rw [if_pos h0] at hret
    exfalso
    have h1 := Option.some.inj hret
    have hE : ENOSPC = (28 : Int) := rfl
    rw [hE] at h1
    omega
  · rw [if_neg h0] at hret ⊢
    have hfb := hA.fb
    have htu : toUnsigned st.high.total_free_bytes =
        CAPACITY - acc.length := by
      rw [hfb, toUnsigned_toNat _ (by omega) (by omega)]
      omega
    have hnc : ¬ (temp.length > toUnsigned st.high.total_free_bytes) := by
      rw [htu]
      omega
    rw [if_neg hnc] at hret ⊢
    rw [if_neg (by decide : ¬ ((1 : Fin 2) : Nat) = 0)] at hret ⊢
    cases hres : (write_data temp.length temp st.high.pages []).res with
    | crash =>
      rw [hres] at hret
      dsimp only at hret
      cases hret
    | nomem => exact absurd hres (write_data_empty_oracle_res _ _ _)
    | ok n =>
      rw [hres] at hret
      dsimp only at hret ⊢
      have hn : n = temp.length := by
        have h1 := Option.some.inj hret
        exact_mod_cast h1
      subst hn
      rw [setFlow_high _ rfl, addCount_high _ rfl]
      have heq : write_data temp.length temp st.high.pages [] =
          ⟨WDRes.ok temp.length,
           (write_data temp.length temp st.high.pages []).pages,
           (write_data temp.length temp st.high.pages []).oracle⟩ := by
        rw [← hres]
      obtain ⟨e1, e2, e3, e4⟩ := write_data_ok temp.length temp
        st.high.pages temp.length _ _ hA.cok hA.pinv.wf le_rfl heq
      refine ⟨write_data_pagesInv _ _ _ _ hA.pinv, e4, ?_, ?_, ?_⟩
      · dsimp only
        rw [e2, hA.unr, List.take_length]
      · dsimp only
        rw [hA.vb]
        simp only [List.length_append]
        push_cast
        ring
      · dsimp only
        rw [hA.fb]
        simp only [List.length_append]
        push_cast
        ring

/-- The one fresh page of a flow at module init is well shaped. -/
theorem pagesInv_emptyPage : PagesInv [emptyPage] := by
  refine ⟨?_, ?_, ?_⟩
  · intro q hq
    simp only [List.mem_singleton] at hq
    subst hq
    exact ⟨Nat.le_refl 0, by simp [emptyPage, OBJECT_MAX_SIZE]⟩
  · intro q hq
    simp at hq
  · intro q hq
    simp only [List.mem_singleton] at hq
    subst hq
    simp [emptyPage, OBJECT_MAX_SIZE]

/-- The initial state carries an empty accumulated byte list. -/
theorem initState_highAcc : HighAcc initState [] := by
  refine ⟨pagesInv_emptyPage, chainOk_single _, rfl, rfl, by
    simp [initState]⟩

/-- A successful clean write sequence appends its concatenation to the
accumulated byte list. -/
theorem writeSeq_acc (ws : List (List Nat)) : ∀ (st st' : SysState)
    (acc : List Nat),
    acc.length + (ws.map List.length).sum ≤ CAPACITY →
    writeSeq st ws = some st' → HighAcc st acc →
    HighAcc st' (acc ++ ws.flatten) := by
  induction ws with
  | nil =>
    intro st st' acc hcap hw hA
    rw [writeSeq] at hw
    obtain rfl : st = st' := by simpa using hw
    simpa using hA
  | cons w ws ih =>
    intro st st' acc hcap hw hA
    rw [writeSeq] at hw
    simp only [List.map_cons, List.sum_cons] at hcap
    split_ifs at hw with hret
    · rw [dev_write_high_clean_eq] at hret hw
      have hA' := dev_writeLocked_high_ok st w acc hA (by omega) hret
      have hstep := ih _ st' (acc ++ w)
        (by simp only [List.length_append]; omega) hw hA'
      simpa [List.flatten_cons, List.append_assoc] using hstep

/-- Reads on a drained flow return 0 and contribute nothing. -/
theorem readSeq_empty_valid (rs : List Nat) : ∀ (st : SysState),
    st.high.valid_bytes = 0 → readSeq st rs = some ([], st) := by
  induction rs with
  | nil =>
    intro st h
    rw [readSeq]
  | cons r rs ih =>
    intro st h
    rw [readSeq]
    have hro : dev_read st 1 0 r cleanREnv =
        ⟨some 0, st, List.replicate r 0, 1, 0 + 1, true⟩ := by
      rw [dev_read_clean_eq]
      unfold dev_readLocked
      dsimp only
      rw [flow_high _ rfl, if_pos h]
    rw [hro]
    dsimp only
    rw [ih st h]
    simp

/-- A clean read requesting at least the accumulated byte count drains
the whole flow and delivers exactly the accumulated bytes. -/
theorem dev_readLocked_drain (st : SysState) (acc : List Nat) (r : Nat)
    (hA : HighAcc st acc) (hcap : acc.length ≤ CAPACITY)
    (hr : acc.length ≤ r) (hne : acc ≠ []) :
    (dev_readLocked st 1 r (List.replicate r 0) cleanREnv 0).ret =
      some ((acc.length : Nat) : Int) ∧
    (dev_readLocked st 1 r (List.replicate r 0)
      cleanREnv 0).buf.take acc.length = acc ∧
    (dev_readLocked st 1 r (List.replicate r 0)
      cleanREnv 0).st.high.valid_bytes = 0 := by
  have hCn : CAPACITY = 20480 := rfl
  have hlpos : 0 < acc.length := List.length_pos.mpr hne
  unfold dev_readLocked
  dsimp only [cleanREnv]
  rw [flow_high _ rfl]
  rw [if_neg (by rw [hA.vb]; omega)]
  have htu : toUnsigned st.high.valid_bytes = acc.length := by
    rw [hA.vb, toUnsigned_toNat _ (by omega) (by omega)]
    omega
  rw [htu]
  have hlen1 : (if r > acc.length then acc.length else r) = acc.length := by
    split_ifs with hgt
    · rfl
    · omega
  rw [hlen1]
  rw [if_neg (not_not_intro rfl)]
  obtain ⟨⟨bs, ps2⟩, hcl⟩ := consumeLoop_complete st.high.pages acc.length
    (by rw [hA.unr]) hA.pinv.wf hA.pinv.tz hA.cok
  rw [hcl]
  dsimp only
  obtain ⟨s1, s2, s3, _, _, _, _⟩ :=
    consumeLoop_sound acc.length st.high.pages bs ps2 hcl hA.pinv.wf
      hA.pinv.tz hA.pinv.nfc
  have hbs : bs = acc := by
    rw [s1, hA.unr, List.take_length]
  rw [setFlow_high _ rfl, addCount_high _ rfl]
  refine ⟨?_, ?_, ?_⟩
  · simp
  · simp only [Nat.zero_min, Nat.sub_zero, hbs, List.take_length]
    exact List.take_left _ _
  · dsimp only
    rw [hA.vb]
    ring

/-- C3: starting from the empty flow, for every successful sequence of
clean synchronous high-priority writes totalling at most the capacity,
concatenating the outputs of successive reads — the first requesting at
least the total, the rest arbitrary (the remaining count is then 0) —
yields exactly the concatenation of the written buffers in insertion
order. -/
theorem C3_round_trip (ws : List (List Nat)) (st : SysState) (r : Nat)
    (rs : List Nat)
    (hcap : (ws.map List.length).sum ≤ CAPACITY)
    (hw : writeSeq initState ws = some st)
    (hr : (ws.map List.length).sum ≤ r) :
    ∃ st', readSeq st (r :: rs) = some (ws.flatten, st') := by
  have hA : HighAcc st ws.flatten := by
    have hacc := writeSeq_acc ws initState st [] (by simpa using hcap) hw
      initState_highAcc
    simpa using hacc
  have hlen : ws.flatten.length = (ws.map List.length).sum :=
    List.length_flatten ws
  by_cases hacc : ws.flatten = []
  · rw [hacc] at hA ⊢
    have h0 : st.high.valid_bytes = 0 := by simpa using hA.vb
    exact ⟨st, readSeq_empty_valid (r :: rs) st h0⟩
  · obtain ⟨d1, d2, d3⟩ := dev_readLocked_drain st ws.flatten r hA
      (by omega) (by omega) hacc
    refine ⟨(dev_readLocked st 1 r (List.replicate r 0) cleanREnv 0).st,
      ?_⟩
    rw [readSeq]
    rw [dev_read_clean_eq, d1]
    dsimp only
    rw [readSeq_empty_valid rs _ d3]
    dsimp only
    rw [List.append_nil, Int.toNat_natCast, d2]

/-- Witness for C3 on a concrete write/read sequence. -/
theorem C3_round_trip_witness :
    ((C3ws.map List.length).sum ≤ CAPACITY ∧
     writeSeq initState C3ws = some C3wst ∧
     (C3ws.map List.length).sum ≤ 5) ∧
    ∃ st', readSeq C3wst (5 :: [7]) = some (C3ws.flatten, st') :=
  ⟨⟨by decide, by decide, by decide⟩,
   C3_round_trip C3ws C3wst 5 [7] (by decide) (by decide) (by decide)⟩

/-- C4: `open` succeeds exactly when the minor is in range and the
endpoint's enable flag marks it enabled (given the session allocation
succeeds); a minor at or past `MINORS` fails with `-ENODEV`, a disabled
endpoint with the distinct error `-1`; a successful open yields a
session with priority 1 (high) and timeout 0 (non-blocking). -/
theorem C4_open_errors (minor : Nat) (enable : Nat → Nat) :
    ((∃ s, dev_open minor enable true = Sum.inr s) ↔
      minor < MINORS ∧ enable minor = 0) ∧
    (MINORS ≤ minor → dev_open minor enable true = Sum.inl (-ENODEV)) ∧
    (minor < MINORS → enable minor ≠ 0 →
      dev_open minor enable true = Sum.inl (-1)) ∧
    (minor < MINORS → enable minor = 0 →
      dev_open minor enable true = Sum.inr ⟨1, 0⟩) ∧
    (-ENODEV : Int) ≠ (-1 : Int) := by
  unfold dev_open
  refine ⟨?_, ?_, ?_, ?_, by decide⟩
  · constructor
    · intro ⟨s, hs⟩
      split_ifs at hs with h1 h2
      all_goals try cases hs
      all_goals exact ⟨by omega, by simpa using h2⟩
    · intro ⟨h1, h2⟩
      rw [if_neg (by omega), if_neg (by simp [h2])]
      exact ⟨_, rfl⟩
  · intro h
    rw [if_pos h]
  · intro h1 h2
    rw [if_neg (by omega), if_pos h2]
  · intro h1 h2
    rw [if_neg (by omega), if_neg (by simp [h2])]
    exact rfl

/-- Witness for C4 at concrete minors and enable flags. -/
theorem C4_open_errors_witness :
    dev_open 130 (fun _ => 0) true = Sum.inl (-ENODEV) ∧
    dev_open 3 (fun _ => 1) true = Sum.inl (-1) ∧
    dev_open 3 (fun _ => 0) true = Sum.inr ⟨1, 0⟩ :=
  ⟨(C4_open_errors 130 (fun _ => 0)).2.1 (by decide),
   (C4_open_errors 3 (fun _ => 1)).2.2.1 (by decide) (by decide),
   (C4_open_errors 3 (fun _ => 0)).2.2.2.1 (by decide) (by decide)⟩

/-- `drop` of a replicate list. -/
theorem drop_replicate_zero (n m : Nat) :
    (List.replicate m (0 : Nat)).drop n = List.replicate (m - n) 0 := by
  rw [List.drop_replicate]

/-- C10 (implicit): `dev_read` zero-fills the whole `ulen`-byte
destination via `clear_user` before touching any device state, so the
final buffer always has length `ulen` and every byte past the returned
count is zero — also when the read returns 0, an error, or fails to
acquire the lock. -/
theorem C10_read_zero_fill (st : SysState) (p : Fin 2) (t : Int)
    (ulen : Nat) (e : ReadEnv) :
    (dev_read st p t ulen e).buf.length = ulen ∧
    (dev_read st p t ulen e).buf.drop
        (((dev_read st p t ulen e).ret.getD 0).toNat) =
      List.replicate
        (ulen - (((dev_read st p t ulen e).ret.getD 0).toNat)) 0 := by
  unfold dev_read dev_readLocked
  dsimp only
  split_ifs <;>
    first
      | (constructor
         · simp
         · simp [drop_replicate_zero])
      | (split
         · constructor
           · simp
           · simp [drop_replicate_zero]
         · rename_i r hcl
           obtain ⟨bs, ps2⟩ := r
           have hblen := consumeLoop_len _ _ bs ps2 hcl
           dsimp only
           constructor
           · simp only [List.length_append, List.length_take,
               List.length_replicate, Option.getD_some]
             omega
           · simp only [Option.getD_some]
             have htn : ∀ L C : Nat, C ≤ L →
                 ((L : Int) - (C : Int)).toNat = L - C := by
               intro L C hLC
               omega
             rw [htn _ _ (Nat.min_le_right _ _)]
             rw [List.drop_append_eq_append_drop]
             rw [List.drop_eq_nil_of_le (by
               simp only [List.length_take]
               omega)]
             rw [List.nil_append, drop_replicate_zero]
             congr 1
             simp only [List.length_take]
             omega)

/-- Counterexample to C5 as stated: a blocking write on a full flow whose
wait is interrupted by a signal returns `-ENOSPC`, not the distinct
`-EINTR` — both wait outcomes share the no-space error. -/
theorem C5_counterexample :
    fullHighSt.high.total_free_bytes = 0 ∧
    (dev_write fullHighSt 1 5 [9] intrWEnv).ret = some (-ENOSPC) ∧
    ¬ (dev_write fullHighSt 1 5 [9] intrWEnv).ret = some (-EINTR) := by
  refine ⟨rfl, ?_, ?_⟩ <;> decide

/-- C5 (amended): a blocking write (`timeout > 0`) that finds
`free_bytes == 0` and whose wait fails returns `-ENOSPC` with the state
unchanged — for a timed-out wait and for a signal interrupt alike; the
driver does not surface `-EINTR`. -/
theorem C5_wait_failure (st : SysState) (p : Fin 2) (t : Int)
    (data : List Nat) (e : WriteEnv)
    (hfree : (st.flow p).total_free_bytes = 0) (ht : 0 < t)
    (ha : e.allocTemp = true) (hl : e.lock1 = true)
    (hw : e.waitRes ≠ WaitRes.success) :
    (dev_write st p t data e).ret = some (-ENOSPC) ∧
    (dev_write st p t data e).st = st := by
  unfold dev_write
  dsimp only
  rw [if_neg (by simp [ha]), if_neg (by simp [hl]),
    if_pos ⟨hfree, ht⟩, if_pos hw]
  exact ⟨rfl, rfl⟩

/-- Witness for the amended C5: a timed-out wait on the full flow. -/
theorem C5_wait_failure_witness :
    (fullHighSt.flow 1).total_free_bytes = 0 ∧ (0 : Int) < 5 ∧
    (dev_write fullHighSt 1 5 [9]
      ⟨true, 0, true, WaitRes.timedOut, true, true, true, true, []⟩).ret =
      some (-ENOSPC) ∧
    (dev_write fullHighSt 1 5 [9]
      ⟨true, 0, true, WaitRes.timedOut, true, true, true, true, []⟩).st =
      fullHighSt :=
  ⟨rfl, by decide,
   (C5_wait_failure fullHighSt 1 5 [9]
     ⟨true, 0, true, WaitRes.timedOut, true, true, true, true, []⟩
     rfl (by decide) rfl rfl (by decide)).1,
   (C5_wait_failure fullHighSt 1 5 [9]
     ⟨true, 0, true, WaitRes.timedOut, true, true, true, true, []⟩
     rfl (by decide) rfl rfl (by decide)).2⟩

/-- Counterexample to C6 as stated: `SET_PRIO` with the out-of-range
argument 2 succeeds (returns 0) and stores 2 as the session priority
instead of failing with `InvalidArgument`. -/
theorem C6_counterexample :
    (dev_ioctl initState ⟨1, 0⟩ SET_PRIO 2 true).ret = 0 ∧
    (dev_ioctl initState ⟨1, 0⟩ SET_PRIO 2 true).sess.priority = 2 := by
  constructor <;> decide

/-- C6 (amended): an unknown control command fails with `-1` and changes
nothing, but the recognised commands store their argument without any
range validation: `SET_PRIO` stores any value as the priority,
`SET_BLOCKING` any value as the timeout, `SET_OPENCLOSE` any value in
the enable flag, each returning 0. -/
theorem C6_ioctl_no_validation (st : SysState) (sess : IoSessInfo)
    (command param : Nat) :
    (command ≠ SET_PRIO → command ≠ SET_BLOCKING →
      command ≠ SET_OPENCLOSE →
      (dev_ioctl st sess command param true).ret = -1 ∧
      (dev_ioctl st sess command param true).st = st ∧
      (dev_ioctl st sess command param true).sess = sess) ∧
    ((dev_ioctl st sess SET_PRIO param true).ret = 0 ∧
     (dev_ioctl st sess SET_PRIO param true).sess.priority = param) ∧
    ((dev_ioctl st sess SET_BLOCKING param true).ret = 0 ∧
     (dev_ioctl st sess SET_BLOCKING param true).sess.timeout =
       (param : Int)) ∧
    ((dev_ioctl st sess SET_OPENCLOSE param true).ret = 0 ∧
     (dev_ioctl st sess SET_OPENCLOSE param true).st.enable_disable =
       param) := by
  unfold dev_ioctl
  refine ⟨?_, ?_, ?_, ?_⟩
  · intro h1 h2 h3
    rw [if_neg (by simp), if_neg h1, if_neg h2, if_neg h3]
    exact ⟨rfl, rfl, rfl⟩
  · rw [if_neg (by simp), if_pos rfl]
    exact ⟨rfl, rfl⟩
  · rw [if_neg (by simp), if_neg (by decide), if_pos rfl]
    exact ⟨rfl, rfl⟩
  · rw [if_neg (by simp), if_neg (by decide), if_neg (by decide),
      if_pos rfl]
    exact ⟨rfl, rfl⟩

/-- Witness for the amended C6: the unknown command 9 changes nothing. -/
theorem C6_ioctl_no_validation_witness :
    (dev_ioctl initState ⟨1, 0⟩ 9 5 true).ret = -1 ∧
    (dev_ioctl initState ⟨1, 0⟩ 9 5 true).st = initState ∧
    (dev_ioctl initState ⟨1, 0⟩ 9 5 true).sess = ⟨1, 0⟩ :=
  (C6_ioctl_no_validation initState ⟨1, 0⟩ 9 5).1 (by decide) (by decide)
    (by decide)

/-- Counterexample to C7 as stated: a zero-length write on a flow with
`free_bytes == 0` (non-blocking session) returns `-ENOSPC`, not 0. -/
theorem C7_counterexample :
    (dev_write fullHighSt 1 0 [] cleanWEnv).ret = some (-ENOSPC) ∧
    ¬ (dev_write fullHighSt 1 0 [] cleanWEnv).ret = some 0 := by
  constructor <;> decide

/-- A zero-length append on a chain holding a non-full page copies
nothing and leaves the chain unchanged. -/
theorem write_data_zero_len (buf : List Nat) (pages : List Page)
    (hne : ∃ q ∈ pages, q.stream_content.length ≠ OBJECT_MAX_SIZE) :
    write_data 0 buf pages [] = ⟨WDRes.ok 0, pages, []⟩ := by
  obtain ⟨q0, hq0m, hq0⟩ := hne
  cases pages with
  | nil => simp at hq0m
  | cons p ps =>
    rw [write_data, write_dataCore]
    dsimp only
    rw [if_neg (Nat.not_lt_zero _)]
    obtain ⟨hdec, hfullA⟩ := walk1_eq p ps
    have hw2 : walk2 ((walk1 p ps).1 ++
        (walk1 p ps).2.1 :: (walk1 p ps).2.2) ≠ none := by
      intro hnone
      exact hq0 ((walk2_none_iff _).mp hnone q0 (by rw [← hdec]; exact hq0m))
    obtain ⟨w, hw⟩ := Option.ne_none_iff_exists'.mp hw2
    rw [copyPhase, hw]
    dsimp only
    rw [copyLoop_zero]
    dsimp only
    obtain ⟨hdec2, _, _⟩ := walk2_some _ w.1 w.2.1 w.2.2 (by rw [hw])
    rw [← hdec2, ← hdec]

/-- A zero-length append on a non-empty all-full chain dereferences a
null pointer in the second walk. -/
theorem write_data_zero_crash (buf : List Nat) (p : Page) (ps : List Page)
    (hall : ∀ q ∈ p :: ps, q.stream_content.length = OBJECT_MAX_SIZE) :
    (write_data 0 buf (p :: ps) []).res = WDRes.crash := by
  rw [write_data, write_dataCore]
  dsimp only
  rw [if_neg (Nat.not_lt_zero _)]
  obtain ⟨hdec, _⟩ := walk1_eq p ps
  have hnone : walk2 ((walk1 p ps).1 ++
      (walk1 p ps).2.1 :: (walk1 p ps).2.2) = none := by
    apply (walk2_none_iff _).mpr
    intro q hq
    exact hall q (by rw [hdec]; exact hq)
  rw [copyPhase, hnone]

/-- C7 (amended): a zero-length clean write behaves as claimed only on a
flow with free bytes and a non-full page in its chain: it returns 0 and
leaves valid_bytes, free_bytes, the log and the per-minor counters
unchanged.  On `free_bytes == 0` with a non-blocking session it instead
returns `-ENOSPC` (state unchanged), and on a non-empty all-full chain
the high path crashes on a null dereference. -/
theorem C7_zero_write (st : SysState) (p : Fin 2) :
    ((st.flow p).total_free_bytes = 0 →
      (dev_write st p 0 [] cleanWEnv).ret = some (-ENOSPC) ∧
      (dev_write st p 0 [] cleanWEnv).st = st) ∧
    ((st.flow p).total_free_bytes ≠ 0 →
      (∃ q ∈ (st.flow p).pages, q.stream_content.length ≠
        OBJECT_MAX_SIZE) →
      (dev_write st p 0 [] cleanWEnv).ret = some 0 ∧
      ((dev_write st p 0 [] cleanWEnv).st.flow p).valid_bytes =
        (st.flow p).valid_bytes ∧
      ((dev_write st p 0 [] cleanWEnv).st.flow p).total_free_bytes =
        (st.flow p).total_free_bytes ∧
      ((dev_write st p 0 [] cleanWEnv).st.flow p).pages =
        (st.flow p).pages ∧
      (dev_write st p 0 [] cleanWEnv).st.low_data_count =
        st.low_data_count ∧
      (dev_write st p 0 [] cleanWEnv).st.high_data_count =
        st.high_data_count) ∧
    ((st.flow p).total_free_bytes ≠ 0 → p.val = 1 →
      (st.flow p).pages ≠ [] →
      (∀ q ∈ (st.flow p).pages, q.stream_content.length =
        OBJECT_MAX_SIZE) →
      (dev_write st p 0 [] cleanWEnv).ret = none) := by
  have hp : p.val = 0 ∨ p.val = 1 := by omega
  unfold dev_write dev_writeLocked
  dsimp only [cleanWEnv]
  rw [if_neg (not_not_intro rfl), if_neg (not_not_intro rfl),
    if_neg (fun hc => absurd hc.2 (lt_irrefl 0))]
  dsimp only [List.length_nil, Nat.sub_zero, List.take_nil]
  refine ⟨?_, ?_, ?_⟩
  · intro h0
    rw [if_pos h0]
    exact ⟨rfl, rfl⟩
  · intro h0 hex
    rw [if_neg h0]
    rw [if_neg (by omega : ¬ 0 > toUnsigned (st.flow p).total_free_bytes)]
    rcases hp with hp | hp
    · rw [if_pos hp]
      rw [flow_low _ hp] at hex h0 ⊢
      refine ⟨rfl, ?_, ?_, ?_, ?_, ?_⟩ <;>
        first
          | rfl
          | (rw [flow_low _ hp]; simp)
    · rw [if_neg (by omega : ¬ p.val = 0)]
      rw [flow_high _ hp] at hex h0 ⊢
      rw [write_data_zero_len _ st.high.pages hex]
      dsimp only
      rw [setFlow_high _ hp, addCount_high _ hp]
      refine ⟨rfl, ?_, ?_, ?_, ?_, ?_⟩ <;>
        first
          | rfl
          | (rw [flow_high _ hp]; try simp)
          | simp
  · intro h0 hp1 hnil hall
    rw [if_neg h0]
    rw [if_neg (by omega : ¬ 0 > toUnsigned (st.flow p).total_free_bytes)]
    rw [if_neg (by omega : ¬ p.val = 0)]
    rw [flow_high _ hp1] at hnil hall ⊢
    cases hpg : st.high.pages with
    | nil => exact absurd hpg hnil
    | cons q qs =>
      rw [hpg] at hall
      have hcr := write_data_zero_crash (List.take 0 []) q qs hall
      cases hres : (write_data 0 (List.take 0 []) (q :: qs) []).res with
      | crash => rfl
      | ok n => rw [hres] at hcr; cases hcr
      | nomem => rw [hres] at hcr; cases hcr

/-- Witness for the amended C7: a zero write on the fresh high flow. -/
theorem C7_zero_write_witness :
    ¬ (initState.flow 1).total_free_bytes = 0 ∧
    (dev_write initState 1 0 [] cleanWEnv).ret = some 0 ∧
    ((dev_write initState 1 0 [] cleanWEnv).st.flow 1).pages =
      (initState.flow 1).pages :=
  ⟨by decide,
   ((C7_zero_write initState 1).2.1 (by decide) (by decide)).1,
   ((C7_zero_write initState 1).2.1 (by decide) (by decide)).2.2.2.1⟩

/-- Counterexample to C8 as stated: a blocking read whose wait times out
releases the mutex (one unlock) without issuing any wake. -/
theorem C8_counterexample :
    (dev_read initState 1 5 10
      ⟨true, WaitRes.timedOut, true, true, 0⟩).acquired = true ∧
    (dev_read initState 1 5 10
      ⟨true, WaitRes.timedOut, true, true, 0⟩).unlocks = 1 ∧
    (dev_read initState 1 5 10
      ⟨true, WaitRes.timedOut, true, true, 0⟩).wakes = 0 := by
  refine ⟨?_, ?_, ?_⟩ <;> decide

/-- Every exit of the locked portion of `dev_write` wakes exactly once,
except a crash, which wakes no one. -/
theorem dev_writeLocked_wake (st : SysState) (p : Fin 2)
    (temp : List Nat) (len0 : Nat) (e : WriteEnv) (b : Nat) :
    ((dev_writeLocked st p temp len0 e b).ret = none →
      (dev_writeLocked st p temp len0 e b).wakes = 0) ∧
    ((dev_writeLocked st p temp len0 e b).ret ≠ none →
      (dev_writeLocked st p temp len0 e b).wakes = 1) := by
  cases ho : dev_writeLocked st p temp len0 e b with
  | mk r s2 wk ul aq =>
    dsimp only
    unfold dev_writeLocked at ho
    dsimp only at ho
    split_ifs at ho <;> (try split at ho) <;> cases ho <;>
      first
        | exact ⟨fun hr => Option.noConfusion hr, fun hr => rfl⟩
        | exact ⟨fun hr => rfl, fun hr => absurd rfl hr⟩

/-- Every exit of the locked portion of `dev_read` wakes exactly once,
except a crash, which wakes no one. -/
theorem dev_readLocked_wake (st : SysState) (p : Fin 2) (ulen : Nat)
    (zeroBuf : List Nat) (e : ReadEnv) (b : Nat) :
    ((dev_readLocked st p ulen zeroBuf e b).ret = none →
      (dev_readLocked st p ulen zeroBuf e b).wakes = 0) ∧
    ((dev_readLocked st p ulen zeroBuf e b).ret ≠ none →
      (dev_readLocked st p ulen zeroBuf e b).wakes = 1) := by
  cases ho : dev_readLocked st p ulen zeroBuf e b with
  | mk r s2 bf wk ul aq =>
    dsimp only
    unfold dev_readLocked at ho
    dsimp only at ho
    split_ifs at ho <;> (try split at ho) <;> cases ho <;>
      first
        | exact ⟨fun hr => Option.noConfusion hr, fun hr => rfl⟩
        | exact ⟨fun hr => rfl, fun hr => absurd rfl hr⟩

/-- C8 (amended): an operation that acquires the flow mutex and does not
crash issues exactly one wake — except the blocking-wait failure exits of
read and write (possible only when the operation found an empty/full flow
with `timeout > 0`), which release the mutex without waking anyone; a
crash inside `write_data`/the consume loop wakes no one either. -/
theorem C8_wake_discipline (st : SysState) (p : Fin 2) (t : Int)
    (data : List Nat) (ulen : Nat) (e : WriteEnv) (re : ReadEnv)
    (sess : IoSessInfo) (c a : Nat) (l : Bool) :
    ((dev_write st p t data e).acquired = true →
      ((dev_write st p t data e).ret ≠ none →
        (dev_write st p t data e).wakes = 1 ∨
        ((dev_write st p t data e).wakes = 0 ∧
         1 ≤ (dev_write st p t data e).unlocks ∧
         (st.flow p).total_free_bytes = 0 ∧ 0 < t)) ∧
      ((dev_write st p t data e).ret = none →
        (dev_write st p t data e).wakes = 0)) ∧
    ((dev_read st p t ulen re).acquired = true →
      ((dev_read st p t ulen re).ret ≠ none →
        (dev_read st p t ulen re).wakes = 1 ∨
        ((dev_read st p t ulen re).wakes = 0 ∧
         1 ≤ (dev_read st p t ulen re).unlocks ∧
         (st.flow p).valid_bytes = 0 ∧ 0 < t)) ∧
      ((dev_read st p t ulen re).ret = none →
        (dev_read st p t ulen re).wakes = 0)) ∧
    ((dev_ioctl st sess c a l).acquired = true →
      (dev_ioctl st sess c a l).wakes = 1 ∧
      (dev_ioctl st sess c a l).unlocks = 1) := by
  refine ⟨?_, ?_, ?_⟩
  · cases ho : dev_write st p t data e with
    | mk r s2 wk ul aq =>
      dsimp only
      unfold dev_write at ho
      dsimp only at ho
      split_ifs at ho <;>
        first
          | (cases ho; intro hacq; exact Bool.noConfusion hacq)
          | (cases ho; intro hacq;
             refine ⟨fun hr => Or.inr ⟨rfl, le_rfl, ?_⟩, fun hr => rfl⟩;
             assumption)
          | (intro hacq;
             have L := dev_writeLocked_wake st p
               (data.take (data.length - e.cfuFail))
               (data.length - e.cfuFail) e 1;
             rw [ho] at L;
             exact ⟨fun hr => Or.inl (L.2 hr), L.1⟩)
          | (intro hacq;
             have L := dev_writeLocked_wake st p
               (data.take (data.length - e.cfuFail))
               (data.length - e.cfuFail) e 0;
             rw [ho] at L;
             exact ⟨fun hr => Or.inl (L.2 hr), L.1⟩)
  · cases ho : dev_read st p t ulen re with
    | mk r s2 bf wk ul aq =>
      dsimp only
      unfold dev_read at ho
      dsimp only at ho
      split_ifs at ho <;>
        first
          | (cases ho; intro hacq; exact Bool.noConfusion hacq)
          | (cases ho; intro hacq;
             refine ⟨fun hr => Or.inr ⟨rfl, le_rfl, ?_⟩, fun hr => rfl⟩;
             assumption)
          | (intro hacq;
             have L := dev_readLocked_wake st p ulen
               (List.replicate ulen 0) re 1;
             rw [ho] at L;
             exact ⟨fun hr => Or.inl (L.2 hr), L.1⟩)
          | (intro hacq;
             have L := dev_readLocked_wake st p ulen
               (List.replicate ulen 0) re 0;
             rw [ho] at L;
             exact ⟨fun hr => Or.inl (L.2 hr), L.1⟩)
  · cases ho : dev_ioctl st sess c a l with
    | mk r s2 se wk ul aq =>
      dsimp only
      unfold dev_ioctl at ho
      split_ifs at ho <;> cases ho <;> intro hacq <;>
        first
          | exact Bool.noConfusion hacq
          | exact ⟨rfl, rfl⟩

/-- Witness for the amended C8: a successful non-blocking write wakes
exactly once, and an ioctl unlocks and wakes exactly once. -/
theorem C8_wake_discipline_witness :
    (dev_write initState 1 0 [4] cleanWEnv).acquired = true ∧
    (dev_write initState 1 0 [4] cleanWEnv).wakes = 1 ∧
    (dev_ioctl initState ⟨1, 0⟩ 1 0 true).wakes = 1 ∧
    (dev_ioctl initState ⟨1, 0⟩ 1 0 true).unlocks = 1 := by
  have h := C8_wake_discipline initState 1 0 [4] 2 cleanWEnv cleanREnv
    ⟨1, 0⟩ 1 0 true
  refine ⟨by decide, ?_, (h.2.2 (by decide)).1, (h.2.2 (by decide)).2⟩
  rcases (h.1 (by decide)).1 (by decide) with h1 | h1
  · exact h1
  · exact absurd h1.2.2.1 (by decide)

end Multistream
